import Mathlib

/-!
Shallow embedding of the kana-dojo infrastructure layer:
the remote key-value store client (src/shared/lib/redis.ts), the hashed
JSON cache helpers, the health-check route handler, and a fixed-window
rate limiter modelled from the specification (its source module is
referenced by the route handler but not part of the available sources).

JavaScript values exchanged with the store are modelled by an inductive
`Json` type (numbers restricted to integers), together with executable
models of JSON.stringify and JSON.parse and a proved round-trip.
-/

/-- JSON values as produced and consumed by the redis layer.
Numbers are modelled as integers. -/
inductive Json where
  | null
  | boolean (b : Bool)
  | number (n : Int)
  | string (s : String)
  | array (items : List Json)
  | object (fields : List (String × Json))

/-- The sixteen lowercase hexadecimal digit characters. -/
def hexDigits : List Char := "0123456789abcdef".data

/-- The lowercase hexadecimal digit character for a value below 16. -/
def hexChar (n : Nat) : Char := hexDigits.getD n '0'

/-- One character escaped the way JSON.stringify escapes string contents. -/
def escapeChar (c : Char) : List Char :=
  if c = '"' then ['\\', '"']
  else if c = '\\' then ['\\', '\\']
  else if c = Char.ofNat 8 then ['\\', 'b']
  else if c = Char.ofNat 9 then ['\\', 't']
  else if c = Char.ofNat 10 then ['\\', 'n']
  else if c = Char.ofNat 12 then ['\\', 'f']
  else if c = Char.ofNat 13 then ['\\', 'r']
  else if c.toNat < 32 then ['\\', 'u', '0', '0', hexChar (c.toNat / 16), hexChar (c.toNat % 16)]
  else [c]

/-- Escape a whole character list as a JSON string body. -/
def escapeList : List Char → List Char
  | [] => []
  | c :: cs => escapeChar c ++ escapeList cs

/-- Decimal digit characters of a natural number, most significant first. -/
def natChars (m : Nat) : List Char :=
  if m = 0 then ['0'] else ((Nat.digits 10 m).map hexChar).reverse

/-- Decimal rendering of an integer, as JavaScript string conversion produces. -/
def intChars (n : Int) : List Char :=
  if n < 0 then '-' :: natChars n.natAbs else natChars n.natAbs

mutual

/-- Model of JSON.stringify, producing the character list of the output. -/
def serialize : Json → List Char
  | .null => ['n', 'u', 'l', 'l']
  | .boolean true => ['t', 'r', 'u', 'e']
  | .boolean false => ['f', 'a', 'l', 's', 'e']
  | .number n => intChars n
  | .string s => '"' :: (escapeList s.data ++ ['"'])
  | .array elems => '[' :: (serializeElems elems ++ [']'])
  | .object members => '{' :: (serializeMembers members ++ ['}'])
termination_by v => sizeOf v
decreasing_by all_goals simp_wf

/-- Comma-separated serialization of array elements. -/
def serializeElems : List Json → List Char
  | [] => []
  | x :: xs => serialize x ++ serializeTail xs
termination_by xs => sizeOf xs
decreasing_by all_goals (simp_wf <;> omega)

/-- Serialization of the remaining array elements, each preceded by a comma. -/
def serializeTail : List Json → List Char
  | [] => []
  | y :: ys => ',' :: (serialize y ++ serializeTail ys)
termination_by ys => sizeOf ys
decreasing_by all_goals (simp_wf <;> omega)

/-- Comma-separated serialization of object members. -/
def serializeMembers : List (String × Json) → List Char
  | [] => []
  | (k, v) :: kvs => serializeMember k v ++ serializeMembersTail kvs
termination_by kvs => sizeOf kvs
decreasing_by all_goals (simp_wf <;> omega)

/-- Serialization of the remaining object members, each preceded by a comma. -/
def serializeMembersTail : List (String × Json) → List Char
  | [] => []
  | (k, v) :: kvs => ',' :: (serializeMember k v ++ serializeMembersTail kvs)
termination_by kvs => sizeOf kvs
decreasing_by all_goals (simp_wf <;> omega)

/-- Serialization of a single object member as key, colon, value. -/
def serializeMember (k : String) (v : Json) : List Char :=
  '"' :: (escapeList k.data ++ '"' :: ':' :: serialize v)
termination_by 1 + sizeOf v
decreasing_by all_goals simp_wf

end

/-- String form of JSON.stringify. -/
def jsonStringify (v : Json) : String := String.mk (serialize v)

/-- JSON whitespace characters: space, tab, line feed, carriage return. -/
def isJsonWs (c : Char) : Bool :=
  c.toNat = 32 || c.toNat = 9 || c.toNat = 10 || c.toNat = 13

/-- Skip leading JSON whitespace. -/
def skipWs : List Char → List Char
  | [] => []
  | c :: cs => if isJsonWs c then skipWs cs else c :: cs

/-- Value of one hexadecimal digit character, upper or lower case. -/
def hexVal (c : Char) : Option Nat :=
  if 48 ≤ c.toNat ∧ c.toNat ≤ 57 then some (c.toNat - 48)
  else if 97 ≤ c.toNat ∧ c.toNat ≤ 102 then some (c.toNat - 87)
  else if 65 ≤ c.toNat ∧ c.toNat ≤ 70 then some (c.toNat - 55)
  else none

/-- Decode one escape sequence after a backslash, the way JSON.parse does,
returning the decoded character and the remaining input. -/
def unescapeStep : List Char → Option (Char × List Char)
  | [] => none
  | e :: cs =>
    if e = '"' then some ('"', cs)
    else if e = '\\' then some ('\\', cs)
    else if e = '/' then some ('/', cs)
    else if e = 'b' then some (Char.ofNat 8, cs)
    else if e = 'f' then some (Char.ofNat 12, cs)
    else if e = 'n' then some (Char.ofNat 10, cs)
    else if e = 'r' then some (Char.ofNat 13, cs)
    else if e = 't' then some (Char.ofNat 9, cs)
    else if e = 'u' then
      match cs with
      | h1 :: h2 :: h3 :: h4 :: cs3 =>
        match hexVal h1, hexVal h2, hexVal h3, hexVal h4 with
        | some a, some b, some c2, some d =>
          let code := ((a * 16 + b) * 16 + c2) * 16 + d
          if _h : code.isValidChar then some (Char.ofNat code, cs3) else none
        | _, _, _, _ => none
      | _ => none
    else none

set_option maxHeartbeats 1000000 in
theorem unescapeStep_length {cs : List Char} {u : Char} {r : List Char}
    (h : unescapeStep cs = some (u, r)) : r.length < cs.length := by
  match cs with
  | [] => simp [unescapeStep] at h
  | e :: cs1 =>
    simp only [unescapeStep] at h
    split_ifs at h <;> try (cases h; simp)
    case _ =>
      split at h
      case _ h1 h2 h3 h4 cs3 =>
        split at h
        case _ =>
          split at h
          · cases h; simp; omega
          · cases h
        case _ => cases h
      case _ => cases h

set_option linter.unusedVariables false in
/-- Parse the body of a JSON string after the opening quote, unescaping as
JSON.parse does; `acc` holds already-read characters in reverse. -/
def parseStringBody : List Char → List Char → Option (String × List Char)
  | [], _ => none
  | c :: cs, acc =>
    if c = '"' then some (String.mk acc.reverse, cs)
    else if c = '\\' then
      match hu : unescapeStep cs with
      | some (u, cs2) => parseStringBody cs2 (u :: acc)
      | none => none
    else if c.toNat < 32 then none
    else parseStringBody cs (c :: acc)
termination_by l _ => l.length
decreasing_by
  · simp_wf
    exact Nat.lt_succ_of_lt (unescapeStep_length hu)
  · simp_wf

/-- Digit value of a decimal digit character. -/
def digitVal (c : Char) : Nat := c.toNat - 48

/-- Split off the longest leading run of decimal digit characters. -/
def takeDigits : List Char → List Char × List Char
  | [] => ([], [])
  | c :: cs =>
    if c.isDigit then
      let p := takeDigits cs
      (c :: p.1, p.2)
    else ([], c :: cs)

/-- Decimal value of a digit-character list, most significant first. -/
def digitsToNat (ds : List Char) : Nat := ds.foldl (fun a c => a * 10 + digitVal c) 0

/-- Parse an unsigned JSON integer: either a lone zero or a nonzero digit
followed by further digits (leading zeros are rejected, as JSON.parse does). -/
def parseNumberPos : List Char → Option (Nat × List Char)
  | [] => none
  | c :: cs =>
    if c = '0' then
      match cs with
      | c2 :: _ => if c2.isDigit then none else some (0, cs)
      | [] => some (0, [])
    else if c.isDigit then
      let p := takeDigits cs
      some (digitsToNat (c :: p.1), p.2)
    else none

/-- Expect a literal character sequence as a prefix of the input and return
the remainder. -/
def expectLit : List Char → List Char → Option (List Char)
  | [], input => some input
  | _ :: _, [] => none
  | p :: ps, c :: cs => if c = p then expectLit ps cs else none

theorem expectLit_self (pat : List Char) : ∀ rest, expectLit pat (pat ++ rest) = some rest := by
  induction pat with
  | nil => intro rest; rfl
  | cons p ps ih => intro rest; simp [expectLit, ih]

mutual

/-- Model of JSON.parse on a character list: parse one value, also returning
the unconsumed remainder.  The fuel argument bounds nesting depth; any fuel
at least the size of the value suffices. -/
def parseValue : Nat → List Char → Option (Json × List Char)
  | 0, _ => none
  | fuel + 1, input =>
    match skipWs input with
    | [] => none
    | c :: cs =>
      if c = 'n' then
        match expectLit ['u', 'l', 'l'] cs with
        | some r => some (.null, r)
        | none => none
      else if c = 't' then
        match expectLit ['r', 'u', 'e'] cs with
        | some r => some (.boolean true, r)
        | none => none
      else if c = 'f' then
        match expectLit ['a', 'l', 's', 'e'] cs with
        | some r => some (.boolean false, r)
        | none => none
      else if c = '"' then
        match parseStringBody cs [] with
        | some (s, r) => some (.string s, r)
        | none => none
      else if c = '[' then
        match skipWs cs with
        | [] => none
        | c2 :: cs2 =>
          if c2 = ']' then some (.array [], cs2)
          else parseElems fuel (c2 :: cs2) []
      else if c = '{' then
        match skipWs cs with
        | [] => none
        | c2 :: cs2 =>
          if c2 = '}' then some (.object [], cs2)
          else parseMembers fuel (c2 :: cs2) []
      else if c = '-' then
        match parseNumberPos cs with
        | some (m, r) => some (.number (-(m : Int)), r)
        | none => none
      else if c.isDigit then
        match parseNumberPos (c :: cs) with
        | some (m, r) => some (.number (m : Int), r)
        | none => none
      else none

/-- Parse the elements of a non-empty JSON array; `acc` holds the elements
already read, in reverse. -/
def parseElems : Nat → List Char → List Json → Option (Json × List Char)
  | 0, _, _ => none
  | fuel + 1, input, acc =>
    match parseValue fuel input with
    | none => none
    | some (v, r) =>
      match skipWs r with
      | [] => none
      | c :: r2 =>
        if c = ',' then parseElems fuel r2 (v :: acc)
        else if c = ']' then some (.array (v :: acc).reverse, r2)
        else none

/-- Parse the members of a non-empty JSON object; `acc` holds the members
already read, in reverse. -/
def parseMembers : Nat → List Char → List (String × Json) → Option (Json × List Char)
  | 0, _, _ => none
  | fuel + 1, input, acc =>
    match skipWs input with
    | [] => none
    | c :: cs =>
      if c = '"' then
        match parseStringBody cs [] with
        | none => none
        | some (k, r) =>
          match skipWs r with
          | [] => none
          | c2 :: r2 =>
            if c2 = ':' then
              match parseValue fuel r2 with
              | none => none
              | some (v, r3) =>
                match skipWs r3 with
                | [] => none
                | c3 :: r4 =>
                  if c3 = ',' then parseMembers fuel r4 ((k, v) :: acc)
                  else if c3 = '}' then some (.object ((k, v) :: acc).reverse, r4)
                  else none
            else none
      else none

end

/-- Model of JSON.parse on a whole string: the parsed value, provided the
entire input is consumed up to trailing whitespace; `none` models a thrown
SyntaxError. -/
def jsonParse (s : String) : Option Json :=
  match parseValue (s.data.length + 1) s.data with
  | some (v, r) => if skipWs r = [] then some v else none
  | none => none

mutual

/-- Structural node count of a JSON value, used to bound parser fuel. -/
def jsonSize : Json → Nat
  | .null => 1
  | .boolean _ => 1
  | .number _ => 1
  | .string _ => 1
  | .array xs => 1 + jsonSizeElems xs
  | .object kvs => 1 + jsonSizeMembers kvs
termination_by v => sizeOf v

/-- Node count of array elements, counting each cons cell. -/
def jsonSizeElems : List Json → Nat
  | [] => 0
  | x :: xs => 1 + jsonSize x + jsonSizeElems xs
termination_by xs => sizeOf xs

/-- Node count of object members, counting each cons cell. -/
def jsonSizeMembers : List (String × Json) → Nat
  | [] => 0
  | (k, v) :: kvs => 1 + jsonSize v + jsonSizeMembers kvs
termination_by kvs => sizeOf kvs

end

theorem one_le_jsonSize (v : Json) : 1 ≤ jsonSize v := by
  cases v <;> simp [jsonSize]

/-- Induction principle for `Json` giving membership hypotheses for the
nested lists. -/
theorem Json.myInduction (P : Json → Prop)
    (hnull : P .null) (hbool : ∀ b, P (.boolean b)) (hnum : ∀ n, P (.number n))
    (hstr : ∀ s, P (.string s))
    (harr : ∀ xs, (∀ x ∈ xs, P x) → P (.array xs))
    (hobj : ∀ kvs, (∀ kv ∈ kvs, P kv.2) → P (.object kvs)) :
    ∀ v, P v := by
  have key : ∀ n v, sizeOf v ≤ n → P v := by
    intro n
    induction n with
    | zero =>
      intro v hv
      cases v <;> simp_arith at hv
    | succ n ih =>
      intro v hv
      cases v with
      | null => exact hnull
      | boolean b => exact hbool b
      | number m => exact hnum m
      | string s => exact hstr s
      | array xs =>
        refine harr xs fun x hx => ih x ?_
        have h1 := List.sizeOf_lt_of_mem hx
        simp_arith at hv
        omega
      | object kvs =>
        refine hobj kvs fun kv hkv => ih kv.2 ?_
        have h1 := List.sizeOf_lt_of_mem hkv
        have h2 : sizeOf kv.2 < sizeOf kv := by
          obtain ⟨a, b⟩ := kv
          simp_arith
        simp_arith at hv
        omega
  exact fun v => key (sizeOf v) v le_rfl

theorem char_ne_of_toNat_ne {c d : Char} (h : c.toNat ≠ d.toNat) : c ≠ d :=
  fun he => h (he ▸ rfl)

theorem isDigit_toNat {c : Char} (h : c.isDigit = true) :
    48 ≤ c.toNat ∧ c.toNat ≤ 57 := by
  simpa [Char.isDigit] using h

theorem skipWs_cons {c : Char} (cs : List Char) (h : isJsonWs c = false) :
    skipWs (c :: cs) = c :: cs := by
  simp [skipWs, h]

theorem hexVal_hexChar : ∀ d, d < 16 → hexVal (hexChar d) = some d := by decide

theorem digitVal_hexChar : ∀ d, d < 10 → digitVal (hexChar d) = d := by decide

theorem hexChar_isDigit : ∀ d, d < 10 → (hexChar d).isDigit = true := by decide

theorem hexChar_ne_zero : ∀ d, d < 10 → d ≠ 0 → hexChar d ≠ '0' := by decide

/-- The continuation after a parsed digit run must not start with a digit. -/
def nonDigitHead : List Char → Prop
  | [] => True
  | c :: _ => c.isDigit = false

theorem takeDigits_spec (ds : List Char) (rest : List Char)
    (hds : ∀ c ∈ ds, c.isDigit = true) (hrest : nonDigitHead rest) :
    takeDigits (ds ++ rest) = (ds, rest) := by
  induction ds with
  | nil =>
    cases rest with
    | nil => rfl
    | cons c cs =>
      simp only [nonDigitHead] at hrest
      simp [takeDigits, hrest]
  | cons c cs ih =>
    have hc : c.isDigit = true := hds c (by simp)
    have := ih (fun x hx => hds x (by simp [hx]))
    simp [takeDigits, hc, this]

theorem foldr_mul_add_eq_ofDigits (l : List Nat) :
    l.foldr (fun d a => a * 10 + d) 0 = Nat.ofDigits 10 l := by
  induction l with
  | nil => simp [Nat.ofDigits]
  | cons d t ih =>
    simp [Nat.ofDigits_cons, ih]
    omega

theorem foldr_digitVal_hexChar (l : List Nat) (hl : ∀ d ∈ l, d < 10) :
    l.foldr (fun d a => a * 10 + digitVal (hexChar d)) 0 =
      l.foldr (fun d a => a * 10 + d) 0 := by
  induction l with
  | nil => rfl
  | cons d t ih =>
    have hd : d < 10 := hl d (by simp)
    have := ih (fun x hx => hl x (by simp [hx]))
    simp [this, digitVal_hexChar d hd]

theorem digitsToNat_natChars (m : Nat) : digitsToNat (natChars m) = m := by
  by_cases hm : m = 0
  · subst hm; rfl
  · have hlt : ∀ d ∈ Nat.digits 10 m, d < 10 :=
      fun d hd => Nat.digits_lt_base (by omega) hd
    simp only [natChars, hm, if_false, digitsToNat]
    rw [List.foldl_reverse, List.foldr_map]
    rw [foldr_digitVal_hexChar _ hlt, foldr_mul_add_eq_ofDigits]
    exact Nat.ofDigits_digits 10 m

/-- For nonzero `m`, the decimal rendering starts with a nonzero digit
character followed by further digit characters. -/
theorem natChars_shape (m : Nat) (hm : m ≠ 0) :
    ∃ c tl, natChars m = c :: tl ∧ c.isDigit = true ∧ c ≠ '0' ∧
      ∀ x ∈ tl, x.isDigit = true := by
  have hne : Nat.digits 10 m ≠ [] := Nat.digits_ne_nil_iff_ne_zero.mpr hm
  rcases List.eq_nil_or_concat (Nat.digits 10 m) with h1 | ⟨L, d0, h1⟩
  · exact absurd h1 hne
  · have hconcat : Nat.digits 10 m = L ++ [d0] := by simpa using h1
    have hd0 : d0 ≠ 0 := by
      have hlast := Nat.getLast_digit_ne_zero 10 hm
      have h2 : (Nat.digits 10 m).getLast? = some d0 := by
        rw [hconcat]; simp
      rw [List.getLast?_eq_getLast _ (Nat.digits_ne_nil_iff_ne_zero.mpr hm)] at h2
      simpa [Option.some_inj.mp h2] using hlast
    have hd0lt : d0 < 10 :=
      Nat.digits_lt_base (by omega) (by rw [hconcat]; simp)
    refine ⟨hexChar d0, (L.map hexChar).reverse, ?_, ?_, ?_, ?_⟩
    · simp [natChars, hm, hconcat]
    · exact hexChar_isDigit d0 hd0lt
    · exact hexChar_ne_zero d0 hd0lt hd0
    · intro x hx
      simp only [List.mem_reverse, List.mem_map] at hx
      obtain ⟨d, hd, rfl⟩ := hx
      have : d < 10 := Nat.digits_lt_base (by omega) (by rw [hconcat]; simp [hd])
      exact hexChar_isDigit d this

theorem parseNumberPos_natChars (m : Nat) (rest : List Char)
    (hrest : nonDigitHead rest) :
    parseNumberPos (natChars m ++ rest) = some (m, rest) := by
  by_cases hm : m = 0
  · subst hm
    cases rest with
    | nil => rfl
    | cons c cs =>
      simp only [nonDigitHead] at hrest
      simp [natChars, parseNumberPos, hrest]
  · obtain ⟨c, tl, hshape, hdig, hne0, htl⟩ := natChars_shape m hm
    have hparse : digitsToNat (c :: tl) = m := by
      rw [show c :: tl = natChars m from hshape.symm]
      exact digitsToNat_natChars m
    rw [hshape]
    simp only [List.cons_append, parseNumberPos, hne0, if_false, hdig, if_true]
    rw [takeDigits_spec tl rest htl hrest]
    simp [hparse]

theorem psbQuote (cs acc : List Char) :
    parseStringBody ('"' :: cs) acc = some (String.mk acc.reverse, cs) := by
  rw [parseStringBody.eq_def]
  dsimp only
  rw [if_pos rfl]

theorem psbEsc {cs : List Char} {u : Char} {cs2 : List Char} (acc : List Char)
    (h : unescapeStep cs = some (u, cs2)) :
    parseStringBody ('\\' :: cs) acc = parseStringBody cs2 (u :: acc) := by
  rw [parseStringBody.eq_def]
  dsimp only
  rw [if_neg (show ¬('\\' = '"') by decide), if_pos (show '\\' = '\\' from rfl)]
  split
  case _ u2 r2 heq =>
    rw [h] at heq
    cases heq
    rfl
  case _ heq => rw [h] at heq; cases heq

theorem psbPlain (c : Char) (cs acc : List Char) (hne1 : ¬ c = '"') (hne2 : ¬ c = '\\')
    (hge : ¬ c.toNat < 32) :
    parseStringBody (c :: cs) acc = parseStringBody cs (c :: acc) := by
  rw [parseStringBody.eq_def]
  dsimp only
  rw [if_neg hne1, if_neg hne2, if_neg hge]

theorem unescQuote (cs : List Char) : unescapeStep ('"' :: cs) = some ('"', cs) := rfl

theorem unescBackslash (cs : List Char) : unescapeStep ('\\' :: cs) = some ('\\', cs) := rfl

theorem unescB (cs : List Char) : unescapeStep ('b' :: cs) = some (Char.ofNat 8, cs) := rfl

theorem unescF (cs : List Char) : unescapeStep ('f' :: cs) = some (Char.ofNat 12, cs) := rfl

theorem unescN (cs : List Char) : unescapeStep ('n' :: cs) = some (Char.ofNat 10, cs) := rfl

theorem unescR (cs : List Char) : unescapeStep ('r' :: cs) = some (Char.ofNat 13, cs) := rfl

theorem unescT (cs : List Char) : unescapeStep ('t' :: cs) = some (Char.ofNat 9, cs) := rfl

theorem unescU {h1 h2 h3 h4 : Char} {a b c2 d : Nat} (cs : List Char)
    (hv1 : hexVal h1 = some a) (hv2 : hexVal h2 = some b)
    (hv3 : hexVal h3 = some c2) (hv4 : hexVal h4 = some d)
    (hvalid : Nat.isValidChar (((a * 16 + b) * 16 + c2) * 16 + d)) :
    unescapeStep ('u' :: h1 :: h2 :: h3 :: h4 :: cs) =
      some (Char.ofNat (((a * 16 + b) * 16 + c2) * 16 + d), cs) := by
  rw [unescapeStep.eq_def]
  dsimp only
  rw [if_neg (show ¬('u' = '"') by decide), if_neg (show ¬('u' = '\\') by decide),
    if_neg (show ¬('u' = '/') by decide), if_neg (show ¬('u' = 'b') by decide),
    if_neg (show ¬('u' = 'f') by decide), if_neg (show ¬('u' = 'n') by decide),
    if_neg (show ¬('u' = 'r') by decide), if_neg (show ¬('u' = 't') by decide),
    if_pos (show 'u' = 'u' from rfl), hv1, hv2, hv3, hv4]
  dsimp only
  rw [dif_pos hvalid]

/-- Each serialized-then-escaped character is read back verbatim. -/
theorem parseStringBody_escape (cs : List Char) :
    ∀ acc rest, parseStringBody (escapeList cs ++ '"' :: rest) acc =
      some (String.mk (acc.reverse ++ cs), rest) := by
  induction cs with
  | nil =>
    intro acc rest
    rw [show escapeList [] = [] from rfl, List.nil_append, psbQuote]
    simp
  | cons c cs ih =>
    intro acc rest
    rw [show escapeList (c :: cs) = escapeChar c ++ escapeList cs from rfl]
    by_cases hq : c = '"'
    · subst hq
      rw [show escapeChar '"' = ['\\', '"'] from rfl]
      rw [show (['\\', '"'] ++ escapeList cs) ++ '"' :: rest
            = '\\' :: '"' :: (escapeList cs ++ '"' :: rest) by simp]
      rw [psbEsc acc (unescQuote _), ih]
      simp
    · by_cases hb : c = '\\'
      · subst hb
        rw [show escapeChar '\\' = ['\\', '\\'] from rfl]
        rw [show (['\\', '\\'] ++ escapeList cs) ++ '"' :: rest
              = '\\' :: '\\' :: (escapeList cs ++ '"' :: rest) by simp]
        rw [psbEsc acc (unescBackslash _), ih]
        simp
      · by_cases h8 : c = Char.ofNat 8
        · subst h8
          rw [show escapeChar (Char.ofNat 8) = ['\\', 'b'] from rfl]
          rw [show (['\\', 'b'] ++ escapeList cs) ++ '"' :: rest
                = '\\' :: 'b' :: (escapeList cs ++ '"' :: rest) by simp]
          rw [psbEsc acc (unescB _), ih]
          simp
        · by_cases h9 : c = Char.ofNat 9
          · subst h9
            rw [show escapeChar (Char.ofNat 9) = ['\\', 't'] from rfl]
            rw [show (['\\', 't'] ++ escapeList cs) ++ '"' :: rest
                  = '\\' :: 't' :: (escapeList cs ++ '"' :: rest) by simp]
            rw [psbEsc acc (unescT _), ih]
            simp
          · by_cases h10 : c = Char.ofNat 10
            · subst h10
              rw [show escapeChar (Char.ofNat 10) = ['\\', 'n'] from rfl]
              rw [show (['\\', 'n'] ++ escapeList cs) ++ '"' :: rest
                    = '\\' :: 'n' :: (escapeList cs ++ '"' :: rest) by simp]
              rw [psbEsc acc (unescN _), ih]
              simp
            · by_cases h12 : c = Char.ofNat 12
              · subst h12
                rw [show escapeChar (Char.ofNat 12) = ['\\', 'f'] from rfl]
                rw [show (['\\', 'f'] ++ escapeList cs) ++ '"' :: rest
                      = '\\' :: 'f' :: (escapeList cs ++ '"' :: rest) by simp]
                rw [psbEsc acc (unescF _), ih]
                simp
              · by_cases h13 : c = Char.ofNat 13
                · subst h13
                  rw [show escapeChar (Char.ofNat 13) = ['\\', 'r'] from rfl]
                  rw [show (['\\', 'r'] ++ escapeList cs) ++ '"' :: rest
                        = '\\' :: 'r' :: (escapeList cs ++ '"' :: rest) by simp]
                  rw [psbEsc acc (unescR _), ih]
                  simp
                · by_cases hc : c.toNat < 32
                  · rw [show escapeChar c
                          = ['\\', 'u', '0', '0', hexChar (c.toNat / 16), hexChar (c.toNat % 16)] by
                      rw [escapeChar, if_neg hq, if_neg hb, if_neg h8, if_neg h9,
                        if_neg h10, if_neg h12, if_neg h13, if_pos hc]]
                    rw [show (['\\', 'u', '0', '0', hexChar (c.toNat / 16),
                          hexChar (c.toNat % 16)] ++ escapeList cs) ++ '"' :: rest
                          = '\\' :: 'u' :: '0' :: '0' :: hexChar (c.toNat / 16) ::
                            hexChar (c.toNat % 16) :: (escapeList cs ++ '"' :: rest) by simp]
                    have hu := unescU (escapeList cs ++ '"' :: rest)
                      (show hexVal '0' = some 0 from rfl) (show hexVal '0' = some 0 from rfl)
                      (hexVal_hexChar (c.toNat / 16) (by omega))
                      (hexVal_hexChar (c.toNat % 16) (by omega))
                      (show Nat.isValidChar (((0 * 16 + 0) * 16 + c.toNat / 16) * 16 + c.toNat % 16) by
                        rw [show ((0 * 16 + 0) * 16 + c.toNat / 16) * 16 + c.toNat % 16
                              = c.toNat by omega]
                        exact c.valid)
                    rw [show ((0 * 16 + 0) * 16 + c.toNat / 16) * 16 + c.toNat % 16
                          = c.toNat by omega] at hu
                    rw [psbEsc acc hu, Char.ofNat_toNat, ih]
                    simp
                  · rw [show escapeChar c = [c] by
                      rw [escapeChar, if_neg hq, if_neg hb, if_neg h8, if_neg h9,
                        if_neg h10, if_neg h12, if_neg h13, if_neg hc]]
                    rw [show ([c] ++ escapeList cs) ++ '"' :: rest
                          = c :: (escapeList cs ++ '"' :: rest) by simp]
                    rw [psbPlain c _ acc hq hb hc, ih]
                    simp

theorem pvNull {input cs r : List Char} (f : Nat) (hs : skipWs input = 'n' :: cs)
    (he : expectLit ['u', 'l', 'l'] cs = some r) :
    parseValue (f + 1) input = some (.null, r) := by
  rw [parseValue.eq_def]
  dsimp only
  rw [hs]
  dsimp only
  rw [if_pos rfl, he]

theorem pvTrue {input cs r : List Char} (f : Nat) (hs : skipWs input = 't' :: cs)
    (he : expectLit ['r', 'u', 'e'] cs = some r) :
    parseValue (f + 1) input = some (.boolean true, r) := by
  rw [parseValue.eq_def]
  dsimp only
  rw [hs]
  dsimp only
  rw [if_neg (show ¬('t' = 'n') by decide), if_pos rfl, he]

theorem pvFalse {input cs r : List Char} (f : Nat) (hs : skipWs input = 'f' :: cs)
    (he : expectLit ['a', 'l', 's', 'e'] cs = some r) :
    parseValue (f + 1) input = some (.boolean false, r) := by
  rw [parseValue.eq_def]
  dsimp only
  rw [hs]
  dsimp only
  rw [if_neg (show ¬('f' = 'n') by decide), if_neg (show ¬('f' = 't') by decide),
    if_pos rfl, he]

theorem pvStr {input cs r : List Char} {s : String} (f : Nat)
    (hs : skipWs input = '"' :: cs) (hb : parseStringBody cs [] = some (s, r)) :
    parseValue (f + 1) input = some (.string s, r) := by
  rw [parseValue.eq_def]
  dsimp only
  rw [hs]
  dsimp only
  rw [if_neg (show ¬('"' = 'n') by decide), if_neg (show ¬('"' = 't') by decide),
    if_neg (show ¬('"' = 'f') by decide), if_pos rfl, hb]

theorem pvArrNil {input cs r : List Char} (f : Nat) (hs : skipWs input = '[' :: cs)
    (h2 : skipWs cs = ']' :: r) :
    parseValue (f + 1) input = some (.array [], r) := by
  rw [parseValue.eq_def]
  dsimp only
  rw [hs]
  dsimp only
  rw [if_neg (show ¬('[' = 'n') by decide), if_neg (show ¬('[' = 't') by decide),
    if_neg (show ¬('[' = 'f') by decide), if_neg (show ¬('[' = '"') by decide),
    if_pos rfl, h2]
  dsimp only
  rw [if_pos rfl]

theorem pvArrCons {input cs : List Char} {c : Char} {cs2 : List Char} (f : Nat)
    (hs : skipWs input = '[' :: cs) (h2 : skipWs cs = c :: cs2) (hc : ¬ c = ']') :
    parseValue (f + 1) input = parseElems f (c :: cs2) [] := by
  rw [parseValue.eq_def]
  dsimp only
  rw [hs]
  dsimp only
  rw [if_neg (show ¬('[' = 'n') by decide), if_neg (show ¬('[' = 't') by decide),
    if_neg (show ¬('[' = 'f') by decide), if_neg (show ¬('[' = '"') by decide),
    if_pos rfl, h2]
  dsimp only
  rw [if_neg hc]

theorem pvObjNil {input cs r : List Char} (f : Nat) (hs : skipWs input = '{' :: cs)
    (h2 : skipWs cs = '}' :: r) :
    parseValue (f + 1) input = some (.object [], r) := by
  rw [parseValue.eq_def]
  dsimp only
  rw [hs]
  dsimp only
  rw [if_neg (show ¬('{' = 'n') by decide), if_neg (show ¬('{' = 't') by decide),
    if_neg (show ¬('{' = 'f') by decide), if_neg (show ¬('{' = '"') by decide),
    if_neg (show ¬('{' = '[') by decide), if_pos rfl, h2]
  dsimp only
  rw [if_pos rfl]

theorem pvObjCons {input cs : List Char} {c : Char} {cs2 : List Char} (f : Nat)
    (hs : skipWs input = '{' :: cs) (h2 : skipWs cs = c :: cs2) (hc : ¬ c = '}') :
    parseValue (f + 1) input = parseMembers f (c :: cs2) [] := by
  rw [parseValue.eq_def]
  dsimp only
  rw [hs]
  dsimp only
  rw [if_neg (show ¬('{' = 'n') by decide), if_neg (show ¬('{' = 't') by decide),
    if_neg (show ¬('{' = 'f') by decide), if_neg (show ¬('{' = '"') by decide),
    if_neg (show ¬('{' = '[') by decide), if_pos rfl, h2]
  dsimp only
  rw [if_neg hc]

theorem pvNeg {input cs r : List Char} {m : Nat} (f : Nat)
    (hs : skipWs input = '-' :: cs) (hn : parseNumberPos cs = some (m, r)) :
    parseValue (f + 1) input = some (.number (-(m : Int)), r) := by
  rw [parseValue.eq_def]
  dsimp only
  rw [hs]
  dsimp only
  rw [if_neg (show ¬('-' = 'n') by decide), if_neg (show ¬('-' = 't') by decide),
    if_neg (show ¬('-' = 'f') by decide), if_neg (show ¬('-' = '"') by decide),
    if_neg (show ¬('-' = '[') by decide), if_neg (show ¬('-' = '{') by decide),
    if_pos rfl, hn]

theorem digit_not_special {c : Char} (hd : c.isDigit = true) :
    ¬ c = 'n' ∧ ¬ c = 't' ∧ ¬ c = 'f' ∧ ¬ c = '"' ∧ ¬ c = '[' ∧ ¬ c = '{' ∧
      ¬ c = '-' ∧ isJsonWs c = false ∧ ¬ c = ']' ∧ ¬ c = '}' ∧ ¬ c = ',' := by
  obtain ⟨hlo, hhi⟩ := isDigit_toNat hd
  refine ⟨?_, ?_, ?_, ?_, ?_, ?_, ?_, ?_, ?_, ?_, ?_⟩ <;>
    first
      | exact char_ne_of_toNat_ne (by simp; omega)
      | (simp [isJsonWs]; omega)

theorem pvDigit {input cs r : List Char} {c : Char} {m : Nat} (f : Nat)
    (hs : skipWs input = c :: cs) (hd : c.isDigit = true)
    (hn : parseNumberPos (c :: cs) = some (m, r)) :
    parseValue (f + 1) input = some (.number (m : Int), r) := by
  obtain ⟨hn1, hn2, hn3, hn4, hn5, hn6, hn7, _, _, _, _⟩ := digit_not_special hd
  rw [parseValue.eq_def]
  dsimp only
  rw [hs]
  dsimp only
  rw [if_neg hn1, if_neg hn2, if_neg hn3, if_neg hn4, if_neg hn5, if_neg hn6,
    if_neg hn7, if_pos hd, hn]

theorem peCons {input r r2 : List Char} {v : Json} {acc : List Json} (f : Nat)
    (hv : parseValue f input = some (v, r)) (hr : skipWs r = ',' :: r2) :
    parseElems (f + 1) input acc = parseElems f r2 (v :: acc) := by
  rw [parseElems.eq_def]
  dsimp only
  rw [hv]
  dsimp only
  rw [hr]
  dsimp only
  rw [if_pos rfl]

theorem peEnd {input r r2 : List Char} {v : Json} {acc : List Json} (f : Nat)
    (hv : parseValue f input = some (v, r)) (hr : skipWs r = ']' :: r2) :
    parseElems (f + 1) input acc = some (.array (v :: acc).reverse, r2) := by
  rw [parseElems.eq_def]
  dsimp only
  rw [hv]
  dsimp only
  rw [hr]
  dsimp only
  rw [if_neg (show ¬(']' = ',') by decide), if_pos rfl]

theorem pmCons {input cs r r2 r3 r4 : List Char} {k : String} {v : Json}
    {acc : List (String × Json)} (f : Nat)
    (hs : skipWs input = '"' :: cs) (hk : parseStringBody cs [] = some (k, r))
    (hc : skipWs r = ':' :: r2) (hv : parseValue f r2 = some (v, r3))
    (hr : skipWs r3 = ',' :: r4) :
    parseMembers (f + 1) input acc = parseMembers f r4 ((k, v) :: acc) := by
  rw [parseMembers.eq_def]
  dsimp only
  rw [hs]
  dsimp only
  rw [if_pos rfl, hk]
  dsimp only
  rw [hc]
  dsimp only
  rw [if_pos rfl, hv]
  dsimp only
  rw [hr]
  dsimp only
  rw [if_pos rfl]

theorem pmEnd {input cs r r2 r3 r4 : List Char} {k : String} {v : Json}
    {acc : List (String × Json)} (f : Nat)
    (hs : skipWs input = '"' :: cs) (hk : parseStringBody cs [] = some (k, r))
    (hc : skipWs r = ':' :: r2) (hv : parseValue f r2 = some (v, r3))
    (hr : skipWs r3 = '}' :: r4) :
    parseMembers (f + 1) input acc = some (.object ((k, v) :: acc).reverse, r4) := by
  rw [parseMembers.eq_def]
  dsimp only
  rw [hs]
  dsimp only
  rw [if_pos rfl, hk]
  dsimp only
  rw [hc]
  dsimp only
  rw [if_pos rfl, hv]
  dsimp only
  rw [hr]
  dsimp only
  rw [if_neg (show ¬('}' = ',') by decide), if_pos rfl]

/-- Characters that may legitimately follow a serialized value. -/
def goodFollow : List Char → Prop
  | [] => True
  | c :: _ => c = ',' ∨ c = ']' ∨ c = '}'

theorem goodFollow_nonDigit {rest : List Char} (h : goodFollow rest) :
    nonDigitHead rest := by
  cases rest with
  | nil => trivial
  | cons c cs =>
    rcases h with h | h | h <;> subst h
    · show (',').isDigit = false
      decide
    · show (']').isDigit = false
      decide
    · show ('}').isDigit = false
      decide

theorem serializeTail_nil : serializeTail ([] : List Json) = [] := by
  simp [serializeTail]

theorem serializeTail_cons (y : Json) (ys : List Json) :
    serializeTail (y :: ys) = ',' :: (serialize y ++ serializeTail ys) := by
  simp [serializeTail]

theorem serializeMembersTail_nil : serializeMembersTail ([] : List (String × Json)) = [] := by
  simp [serializeMembersTail]

theorem serializeMembersTail_cons (k : String) (v : Json) (kvs : List (String × Json)) :
    serializeMembersTail ((k, v) :: kvs)
      = ',' :: (serializeMember k v ++ serializeMembersTail kvs) := by
  simp [serializeMembersTail]

theorem serializeMember_eq (k : String) (v : Json) :
    serializeMember k v = '"' :: (escapeList k.data ++ '"' :: ':' :: serialize v) := by
  simp [serializeMember]

theorem goodFollow_elems (xs : List Json) (rest : List Char) :
    goodFollow (serializeTail xs ++ ']' :: rest) := by
  cases xs with
  | nil =>
    rw [serializeTail_nil, List.nil_append]
    exact Or.inr (Or.inl rfl)
  | cons y ys =>
    rw [serializeTail_cons, List.cons_append]
    exact Or.inl rfl

theorem goodFollow_members (kvs : List (String × Json)) (rest : List Char) :
    goodFollow (serializeMembersTail kvs ++ '}' :: rest) := by
  cases kvs with
  | nil =>
    rw [serializeMembersTail_nil, List.nil_append]
    exact Or.inr (Or.inr rfl)
  | cons kv kvs2 =>
    obtain ⟨k, v⟩ := kv
    rw [serializeMembersTail_cons, List.cons_append]
    exact Or.inl rfl

theorem natChars_cons (m : Nat) : ∃ c t, natChars m = c :: t ∧ c.isDigit = true := by
  by_cases hm : m = 0
  · subst hm
    exact ⟨'0', [], rfl, by decide⟩
  · obtain ⟨c, tl, h, hd, _, _⟩ := natChars_shape m hm
    exact ⟨c, tl, h, hd⟩

theorem serialize_shape (v : Json) : ∃ c t, serialize v = c :: t ∧ isJsonWs c = false ∧
    ¬ c = ']' ∧ ¬ c = '}' ∧ ¬ c = ',' := by
  cases v with
  | null =>
    exact ⟨'n', ['u', 'l', 'l'], by simp [serialize], by decide, by decide, by decide, by decide⟩
  | boolean b =>
    cases b with
    | true =>
      exact ⟨'t', ['r', 'u', 'e'], by simp [serialize], by decide, by decide, by decide, by decide⟩
    | false =>
      exact ⟨'f', ['a', 'l', 's', 'e'], by simp [serialize], by decide, by decide, by decide,
        by decide⟩
  | number n =>
    by_cases hneg : n < 0
    · exact ⟨'-', natChars n.natAbs, by simp [serialize, intChars, hneg], by decide, by decide,
        by decide, by decide⟩
    · obtain ⟨c0, t0, hnc, hdig⟩ := natChars_cons n.natAbs
      obtain ⟨_, _, _, _, _, _, _, hws, hb1, hb2, hb3⟩ := digit_not_special hdig
      exact ⟨c0, t0, by simp [serialize, intChars, hneg, hnc], hws, hb1, hb2, hb3⟩
  | string s =>
    exact ⟨'"', escapeList s.data ++ ['"'], by simp [serialize], by decide, by decide, by decide,
      by decide⟩
  | array xs =>
    exact ⟨'[', serializeElems xs ++ [']'], by simp [serialize], by decide, by decide, by decide,
      by decide⟩
  | object kvs =>
    exact ⟨'{', serializeMembers kvs ++ ['}'], by simp [serialize], by decide, by decide,
      by decide, by decide⟩

theorem skipWs_head (c : Char) (t rest : List Char) (hc : isJsonWs c = false) :
    skipWs ((c :: t) ++ rest) = c :: (t ++ rest) := by
  rw [List.cons_append]
  exact skipWs_cons _ hc

/-- Round trip of the parser against the serializer, stated for all three
mutual parsing functions and proved by strong induction on fuel. -/
theorem parse_serialize_main : ∀ f : Nat,
    (∀ v rest, jsonSize v ≤ f → goodFollow rest →
      parseValue f (serialize v ++ rest) = some (v, rest)) ∧
    (∀ x xs acc rest, 1 + jsonSize x + jsonSizeElems xs ≤ f → goodFollow rest →
      parseElems f (serialize x ++ (serializeTail xs ++ ']' :: rest)) acc =
        some (.array (acc.reverse ++ x :: xs), rest)) ∧
    (∀ k v kvs acc rest, 1 + jsonSize v + jsonSizeMembers kvs ≤ f → goodFollow rest →
      parseMembers f (serializeMember k v ++ (serializeMembersTail kvs ++ '}' :: rest)) acc =
        some (.object (acc.reverse ++ (k, v) :: kvs), rest)) := by
  intro f
  induction f using Nat.strong_induction_on with
  | _ f ih =>
  refine ⟨?_, ?_, ?_⟩
  · intro v rest hf hrest
    obtain ⟨f', rfl⟩ : ∃ f', f = f' + 1 :=
      ⟨f - 1, by have := one_le_jsonSize v; omega⟩
    cases v with
    | null =>
      have hs : skipWs (serialize Json.null ++ rest) = 'n' :: (['u', 'l', 'l'] ++ rest) := by
        rw [show serialize Json.null = 'n' :: ['u', 'l', 'l'] by simp [serialize]]
        exact skipWs_head 'n' ['u', 'l', 'l'] rest (by decide)
      exact pvNull f' hs (expectLit_self ['u', 'l', 'l'] rest)
    | boolean b =>
      cases b with
      | true =>
        have hs : skipWs (serialize (Json.boolean true) ++ rest)
            = 't' :: (['r', 'u', 'e'] ++ rest) := by
          rw [show serialize (Json.boolean true) = 't' :: ['r', 'u', 'e'] by simp [serialize]]
          exact skipWs_head 't' ['r', 'u', 'e'] rest (by decide)
        exact pvTrue f' hs (expectLit_self ['r', 'u', 'e'] rest)
      | false =>
        have hs : skipWs (serialize (Json.boolean false) ++ rest)
            = 'f' :: (['a', 'l', 's', 'e'] ++ rest) := by
          rw [show serialize (Json.boolean false) = 'f' :: ['a', 'l', 's', 'e'] by simp [serialize]]
          exact skipWs_head 'f' ['a', 'l', 's', 'e'] rest (by decide)
        exact pvFalse f' hs (expectLit_self ['a', 'l', 's', 'e'] rest)
    | number n =>
      by_cases hneg : n < 0
      · have hs : skipWs (serialize (Json.number n) ++ rest)
            = '-' :: (natChars n.natAbs ++ rest) := by
          rw [show serialize (Json.number n) = '-' :: natChars n.natAbs by
            simp [serialize, intChars, hneg]]
          exact skipWs_head '-' (natChars n.natAbs) rest (by decide)
        have hn := parseNumberPos_natChars n.natAbs rest (goodFollow_nonDigit hrest)
        rw [pvNeg f' hs hn, show -((n.natAbs : Nat) : Int) = n by omega]
      · obtain ⟨c0, t0, hnc, hdig⟩ := natChars_cons n.natAbs
        obtain ⟨_, _, _, _, _, _, _, hws, _, _, _⟩ := digit_not_special hdig
        have hs : skipWs (serialize (Json.number n) ++ rest) = c0 :: (t0 ++ rest) := by
          rw [show serialize (Json.number n) = c0 :: t0 by
            simp [serialize, intChars, hneg, hnc]]
          exact skipWs_head c0 t0 rest hws
        have hn : parseNumberPos (c0 :: (t0 ++ rest)) = some (n.natAbs, rest) := by
          rw [show c0 :: (t0 ++ rest) = natChars n.natAbs ++ rest by rw [hnc]; simp]
          exact parseNumberPos_natChars n.natAbs rest (goodFollow_nonDigit hrest)
        rw [pvDigit f' hs hdig hn, show ((n.natAbs : Nat) : Int) = n by omega]
    | string s =>
      have hs : skipWs (serialize (Json.string s) ++ rest)
          = '"' :: (escapeList s.data ++ '"' :: rest) := by
        rw [show serialize (Json.string s) = '"' :: (escapeList s.data ++ ['"']) by
          simp [serialize]]
        rw [skipWs_head '"' (escapeList s.data ++ ['"']) rest (by decide)]
        simp
      have hb : parseStringBody (escapeList s.data ++ '"' :: rest) [] = some (s, rest) := by
        have := parseStringBody_escape s.data [] rest
        simpa using this
      exact pvStr f' hs hb
    | array xs =>
      cases xs with
      | nil =>
        have hs : skipWs (serialize (Json.array []) ++ rest) = '[' :: ([']'] ++ rest) := by
          rw [show serialize (Json.array []) = '[' :: [']'] by
            simp [serialize, serializeElems]]
          exact skipWs_head '[' [']'] rest (by decide)
        have h2 : skipWs ([']'] ++ rest) = ']' :: rest := by
          rw [List.singleton_append]
          exact skipWs_cons _ (by decide)
        exact pvArrNil f' hs h2
      | cons x xs =>
        obtain ⟨c0, t0, hx, hnws, hne1, hne2, hne3⟩ := serialize_shape x
        have hs : skipWs (serialize (Json.array (x :: xs)) ++ rest)
            = '[' :: (serialize x ++ (serializeTail xs ++ ']' :: rest)) := by
          rw [show serialize (Json.array (x :: xs))
                = '[' :: ((serialize x ++ serializeTail xs) ++ [']']) by
            simp [serialize, serializeElems]]
          rw [skipWs_head '[' ((serialize x ++ serializeTail xs) ++ [']']) rest (by decide)]
          simp
        have h2 : skipWs (serialize x ++ (serializeTail xs ++ ']' :: rest))
            = c0 :: (t0 ++ (serializeTail xs ++ ']' :: rest)) := by
          rw [hx]
          exact skipWs_head c0 t0 _ hnws
        rw [pvArrCons f' hs h2 hne1]
        have hsz : 1 + jsonSize x + jsonSizeElems xs ≤ f' := by
          simp only [jsonSize, jsonSizeElems] at hf
          omega
        have hPE := (ih f' (by omega)).2.1 x xs [] rest hsz hrest
        rw [show c0 :: (t0 ++ (serializeTail xs ++ ']' :: rest))
              = serialize x ++ (serializeTail xs ++ ']' :: rest) by rw [hx]; simp]
        rw [hPE]
        simp
    | object kvs =>
      cases kvs with
      | nil =>
        have hs : skipWs (serialize (Json.object []) ++ rest) = '{' :: (['}'] ++ rest) := by
          rw [show serialize (Json.object []) = '{' :: ['}'] by
            simp [serialize, serializeMembers]]
          exact skipWs_head '{' ['}'] rest (by decide)
        have h2 : skipWs (['}'] ++ rest) = '}' :: rest := by
          rw [List.singleton_append]
          exact skipWs_cons _ (by decide)
        exact pvObjNil f' hs h2
      | cons kv kvs =>
        obtain ⟨k, v⟩ := kv
        have hs : skipWs (serialize (Json.object ((k, v) :: kvs)) ++ rest)
            = '{' :: (serializeMember k v ++ (serializeMembersTail kvs ++ '}' :: rest)) := by
          rw [show serialize (Json.object ((k, v) :: kvs))
                = '{' :: ((serializeMember k v ++ serializeMembersTail kvs) ++ ['}']) by
            simp [serialize, serializeMembers]]
          rw [skipWs_head '{' ((serializeMember k v ++ serializeMembersTail kvs) ++ ['}'])
            rest (by decide)]
          simp
        have h2 : skipWs (serializeMember k v ++ (serializeMembersTail kvs ++ '}' :: rest))
            = '"' :: ((escapeList k.data ++ '"' :: ':' :: serialize v)
                ++ (serializeMembersTail kvs ++ '}' :: rest)) := by
          rw [serializeMember_eq]
          exact skipWs_head '"' _ _ (by decide)
        rw [pvObjCons f' hs h2 (by decide)]
        have hsz : 1 + jsonSize v + jsonSizeMembers kvs ≤ f' := by
          simp only [jsonSize, jsonSizeMembers] at hf
          omega
        have hPM := (ih f' (by omega)).2.2 k v kvs [] rest hsz hrest
        rw [show '"' :: ((escapeList k.data ++ '"' :: ':' :: serialize v)
              ++ (serializeMembersTail kvs ++ '}' :: rest))
              = serializeMember k v ++ (serializeMembersTail kvs ++ '}' :: rest) by
          rw [serializeMember_eq]; simp]
        rw [hPM]
        simp
  · intro x xs acc rest hf hrest
    obtain ⟨f', rfl⟩ : ∃ f', f = f' + 1 := ⟨f - 1, by omega⟩
    have hxf : jsonSize x ≤ f' := by omega
    have hv := (ih f' (by omega)).1 x (serializeTail xs ++ ']' :: rest) hxf
      (goodFollow_elems xs rest)
    cases xs with
    | nil =>
      rw [serializeTail_nil, List.nil_append] at hv ⊢
      have hr : skipWs (']' :: rest) = ']' :: rest := skipWs_cons _ (by decide)
      rw [peEnd f' hv hr]
      simp
    | cons y ys =>
      rw [serializeTail_cons] at hv
      have hr : skipWs (',' :: ((serialize y ++ serializeTail ys) ++ ']' :: rest))
          = ',' :: ((serialize y ++ serializeTail ys) ++ ']' :: rest) :=
        skipWs_cons _ (by decide)
      rw [show serializeTail (y :: ys) ++ ']' :: rest
            = ',' :: ((serialize y ++ serializeTail ys) ++ ']' :: rest) by
        rw [serializeTail_cons]; simp]
      rw [show ',' :: (serialize y ++ serializeTail ys) ++ ']' :: rest
            = ',' :: ((serialize y ++ serializeTail ys) ++ ']' :: rest) by simp] at hv
      rw [peCons f' hv hr]
      have hsz : 1 + jsonSize y + jsonSizeElems ys ≤ f' := by
        simp only [jsonSizeElems] at hf
        have := one_le_jsonSize x
        omega
      have hPE := (ih f' (by omega)).2.1 y ys (x :: acc) rest hsz hrest
      rw [List.append_assoc, hPE]
      simp
  · intro k v kvs acc rest hf hrest
    obtain ⟨f', rfl⟩ : ∃ f', f = f' + 1 := ⟨f - 1, by omega⟩
    have hs : skipWs (serializeMember k v ++ (serializeMembersTail kvs ++ '}' :: rest))
        = '"' :: ((escapeList k.data ++ '"' :: ':' :: serialize v)
            ++ (serializeMembersTail kvs ++ '}' :: rest)) := by
      rw [serializeMember_eq]
      exact skipWs_head '"' _ _ (by decide)
    have hk : parseStringBody ((escapeList k.data ++ '"' :: ':' :: serialize v)
          ++ (serializeMembersTail kvs ++ '}' :: rest)) []
        = some (k, ':' :: (serialize v ++ (serializeMembersTail kvs ++ '}' :: rest))) := by
      have := parseStringBody_escape k.data []
        (':' :: (serialize v ++ (serializeMembersTail kvs ++ '}' :: rest)))
      rw [show (escapeList k.data ++ '"' :: ':' :: serialize v)
            ++ (serializeMembersTail kvs ++ '}' :: rest)
            = escapeList k.data
              ++ '"' :: ':' :: (serialize v ++ (serializeMembersTail kvs ++ '}' :: rest)) by
        simp]
      simpa using this
    have hc : skipWs (':' :: (serialize v ++ (serializeMembersTail kvs ++ '}' :: rest)))
        = ':' :: (serialize v ++ (serializeMembersTail kvs ++ '}' :: rest)) :=
      skipWs_cons _ (by decide)
    have hvf : jsonSize v ≤ f' := by omega
    have hv2 := (ih f' (by omega)).1 v (serializeMembersTail kvs ++ '}' :: rest) hvf
      (goodFollow_members kvs rest)
    cases kvs with
    | nil =>
      rw [serializeMembersTail_nil, List.nil_append] at hs hk hc hv2 ⊢
      have hr : skipWs ('}' :: rest) = '}' :: rest := skipWs_cons _ (by decide)
      rw [pmEnd f' hs hk hc hv2 hr]
      simp
    | cons kv2 kvs2 =>
      obtain ⟨k2, v2⟩ := kv2
      rw [show serializeMembersTail ((k2, v2) :: kvs2) ++ '}' :: rest
            = ',' :: ((serializeMember k2 v2 ++ serializeMembersTail kvs2) ++ '}' :: rest) by
        rw [serializeMembersTail_cons]; simp] at hs hk hc hv2 ⊢
      have hr : skipWs (',' :: ((serializeMember k2 v2 ++ serializeMembersTail kvs2)
            ++ '}' :: rest))
          = ',' :: ((serializeMember k2 v2 ++ serializeMembersTail kvs2) ++ '}' :: rest) :=
        skipWs_cons _ (by decide)
      rw [pmCons f' hs hk hc hv2 hr]
      have hsz : 1 + jsonSize v2 + jsonSizeMembers kvs2 ≤ f' := by
        simp only [jsonSizeMembers] at hf
        have := one_le_jsonSize v
        omega
      have hPM := (ih f' (by omega)).2.2 k2 v2 kvs2 ((k, v) :: acc) rest hsz hrest
      rw [List.append_assoc, hPM]
      simp

theorem jsonSize_le_length (v : Json) : jsonSize v ≤ (serialize v).length := by
  induction v using Json.myInduction with
  | hnull => simp [serialize, jsonSize]
  | hbool b => cases b <;> simp [serialize, jsonSize]
  | hnum n =>
    obtain ⟨c, t, h, _⟩ := natChars_cons n.natAbs
    simp only [serialize, jsonSize, intChars]
    split <;> simp [h]
  | hstr s => simp [serialize, jsonSize]
  | harr xs ihm =>
    have htail : ∀ ys, (∀ y ∈ ys, jsonSize y ≤ (serialize y).length) →
        jsonSizeElems ys ≤ (serializeTail ys).length := by
      intro ys
      induction ys with
      | nil =>
        intro _
        simp [jsonSizeElems, serializeTail_nil]
      | cons y ys2 ih2 =>
        intro hys
        rw [serializeTail_cons]
        have h1 := hys y (by simp)
        have h2 := ih2 (fun z hz => hys z (by simp [hz]))
        simp only [jsonSizeElems, List.length_cons, List.length_append]
        omega
    cases xs with
    | nil => simp [serialize, jsonSize, jsonSizeElems, serializeElems]
    | cons x xs2 =>
      have h1 := ihm x (by simp)
      have h2 := htail xs2 (fun z hz => ihm z (by simp [hz]))
      simp only [serialize, jsonSize, jsonSizeElems, serializeElems, List.length_cons,
        List.length_append]
      simp only [List.length_cons, List.length_nil]
      omega
  | hobj kvs ihm =>
    have htail : ∀ ys, (∀ kv ∈ ys, jsonSize (kv : String × Json).2 ≤ (serialize kv.2).length) →
        jsonSizeMembers ys ≤ (serializeMembersTail ys).length := by
      intro ys
      induction ys with
      | nil =>
        intro _
        simp [jsonSizeMembers, serializeMembersTail_nil]
      | cons kv ys2 ih2 =>
        intro hys
        obtain ⟨k2, v2⟩ := kv
        rw [serializeMembersTail_cons, serializeMember_eq]
        have h1 := hys (k2, v2) (by simp)
        dsimp only at h1
        have h2 := ih2 (fun z hz => hys z (by simp [hz]))
        simp only [jsonSizeMembers, List.length_cons, List.length_append]
        omega
    cases kvs with
    | nil => simp [serialize, jsonSize, jsonSizeMembers, serializeMembers]
    | cons kv kvs2 =>
      obtain ⟨k, v⟩ := kv
      have h1 := ihm (k, v) (by simp)
      dsimp only at h1
      have h2 := htail kvs2 (fun z hz => ihm z (by simp [hz]))
      rw [show serialize (Json.object ((k, v) :: kvs2))
            = '{' :: ((serializeMember k v ++ serializeMembersTail kvs2) ++ ['}']) by
        simp [serialize, serializeMembers]]
      rw [serializeMember_eq]
      simp only [jsonSize, jsonSizeMembers, List.length_cons, List.length_append]
      omega

/-- JSON.parse inverts JSON.stringify on every modelled JSON value. -/
theorem jsonParse_stringify (v : Json) : jsonParse (jsonStringify v) = some v := by
  have hmain := (parse_serialize_main ((serialize v).length + 1)).1 v []
    (Nat.le_succ_of_le (jsonSize_le_length v)) trivial
  rw [List.append_nil] at hmain
  simp only [jsonParse, jsonStringify]
  rw [hmain]
  simp [skipWs]

/-- Reduction of a value to a 32-bit word. -/
def w32 (n : Nat) : Nat := n % 4294967296

/-- Right rotation of a 32-bit word. -/
def rotr32 (n x : Nat) : Nat := w32 ((x >>> n) ||| (x <<< (32 - n)))

def shaCh (x y z : Nat) : Nat := (x &&& y) ^^^ ((x ^^^ 4294967295) &&& z)

def shaMaj (x y z : Nat) : Nat := (x &&& y) ^^^ (x &&& z) ^^^ (y &&& z)

def bigSigma0 (x : Nat) : Nat := rotr32 2 x ^^^ rotr32 13 x ^^^ rotr32 22 x

def bigSigma1 (x : Nat) : Nat := rotr32 6 x ^^^ rotr32 11 x ^^^ rotr32 25 x

def smallSigma0 (x : Nat) : Nat := rotr32 7 x ^^^ rotr32 18 x ^^^ (x >>> 3)

def smallSigma1 (x : Nat) : Nat := rotr32 17 x ^^^ rotr32 19 x ^^^ (x >>> 10)

/-- The 64 SHA-256 round constants. -/
def shaK : List Nat :=
  [1116352408, 1899447441, 3049323471, 3921009573, 961987163, 1508970993,
   2453635748, 2870763221, 3624381080, 310598401, 607225278, 1426881987,
   1925078388, 2162078206, 2614888103, 3248222580, 3835390401, 4022224774,
   264347078, 604807628, 770255983, 1249150122, 1555081692, 1996064986,
   2554220882, 2821834349, 2952996808, 3210313671, 3336571891, 3584528711,
   113926993, 338241895, 666307205, 773529912, 1294757372, 1396182291,
   1695183700, 1986661051, 2177026350, 2456956037, 2730485921, 2820302411,
   3259730800, 3345764771, 3516065817, 3600352804, 4094571909, 275423344,
   430227734, 506948616, 659060556, 883997877, 958139571, 1322822218,
   1537002063, 1747873779, 1955562222, 2024104815, 2227730452, 2361852424,
   2428436474, 2756734187, 3204031479, 3329325298]

/-- The eight-word SHA-256 hash state. -/
structure Sha256H where
  h0 : Nat
  h1 : Nat
  h2 : Nat
  h3 : Nat
  h4 : Nat
  h5 : Nat
  h6 : Nat
  h7 : Nat

/-- SHA-256 initial hash values. -/
def shaInit : Sha256H :=
  ⟨1779033703, 3144134277, 1013904242, 2773480762,
    1359893119, 2600822924, 528734635, 1541459225⟩

/-- The eight working registers of the compression loop. -/
structure ShaRegs where
  ra : Nat
  rb : Nat
  rc : Nat
  rd : Nat
  re : Nat
  rf : Nat
  rg : Nat
  rh : Nat

/-- One round of the SHA-256 compression function. -/
def shaRound (r : ShaRegs) (kw : Nat × Nat) : ShaRegs :=
  let t1 := w32 (r.rh + bigSigma1 r.re + shaCh r.re r.rf r.rg + kw.1 + kw.2)
  let t2 := w32 (bigSigma0 r.ra + shaMaj r.ra r.rb r.rc)
  ⟨w32 (t1 + t2), r.ra, r.rb, r.rc, w32 (r.rd + t1), r.re, r.rf, r.rg⟩

/-- Big-endian packing of bytes into 32-bit words. -/
def bytesToWords : List Nat → List Nat
  | b0 :: b1 :: b2 :: b3 :: rest =>
    (((b0 * 256 + b1) * 256 + b2) * 256 + b3) :: bytesToWords rest
  | _ => []

/-- Extend the 16-word message schedule by the given number of words. -/
def extendW (ws : List Nat) : Nat → List Nat
  | 0 => ws
  | n + 1 =>
    let i := ws.length
    let x := w32 (ws.getD (i - 16) 0 + smallSigma0 (ws.getD (i - 15) 0)
      + ws.getD (i - 7) 0 + smallSigma1 (ws.getD (i - 2) 0))
    extendW (ws ++ [x]) n

/-- Process one 64-byte chunk of the padded message. -/
def processChunk (h : Sha256H) (chunk : List Nat) : Sha256H :=
  let ws := extendW (bytesToWords chunk) 48
  let r0 : ShaRegs := ⟨h.h0, h.h1, h.h2, h.h3, h.h4, h.h5, h.h6, h.h7⟩
  let r := (shaK.zip ws).foldl shaRound r0
  ⟨w32 (h.h0 + r.ra), w32 (h.h1 + r.rb), w32 (h.h2 + r.rc), w32 (h.h3 + r.rd),
   w32 (h.h4 + r.re), w32 (h.h5 + r.rf), w32 (h.h6 + r.rg), w32 (h.h7 + r.rh)⟩

/-- Big-endian 64-bit encoding of the message bit length. -/
def be64 (n : Nat) : List Nat :=
  [(n >>> 56) % 256, (n >>> 48) % 256, (n >>> 40) % 256, (n >>> 32) % 256,
   (n >>> 24) % 256, (n >>> 16) % 256, (n >>> 8) % 256, n % 256]

/-- SHA-256 padding: a 0x80 byte, zeros, and the 64-bit bit length. -/
def sha256Pad (msg : List Nat) : List Nat :=
  msg ++ 128 :: (List.replicate ((64 - ((msg.length + 9) % 64)) % 64) 0 ++ be64 (msg.length * 8))

set_option linter.unusedVariables false in
/-- Split a byte list into 64-byte chunks. -/
def chunks64 (l : List Nat) : List (List Nat) :=
  if hl : l = [] then [] else l.take 64 :: chunks64 (l.drop 64)
termination_by l.length
decreasing_by
  simp_wf
  have := List.length_pos.mpr hl
  omega

/-- SHA-256 of a byte list. -/
def sha256Bytes (msg : List Nat) : Sha256H :=
  (chunks64 (sha256Pad msg)).foldl processChunk shaInit

/-- UTF-8 encoding of one character. -/
def utf8Bytes (c : Char) : List Nat :=
  let n := c.toNat
  if n < 128 then [n]
  else if n < 2048 then [192 + n / 64, 128 + n % 64]
  else if n < 65536 then [224 + n / 4096, 128 + n / 64 % 64, 128 + n % 64]
  else [240 + n / 262144, 128 + n / 4096 % 64, 128 + n / 64 % 64, 128 + n % 64]

/-- UTF-8 bytes of a string, as the hash update consumes them. -/
def strBytes (s : String) : List Nat := (s.data.map utf8Bytes).flatten

/-- The eight lowercase hex characters of a 32-bit word. -/
def wordHexChars (w : Nat) : List Char :=
  [hexChar (w / 268435456 % 16), hexChar (w / 16777216 % 16), hexChar (w / 1048576 % 16),
   hexChar (w / 65536 % 16), hexChar (w / 4096 % 16), hexChar (w / 256 % 16),
   hexChar (w / 16 % 16), hexChar (w % 16)]

/-- Lowercase hexadecimal SHA-256 digest of a string, as
createHash(sha256).update(rawKey).digest(hex) produces. -/
def sha256Hex (s : String) : String :=
  let h := sha256Bytes (strBytes s)
  String.mk (wordHexChars h.h0 ++ wordHexChars h.h1 ++ wordHexChars h.h2 ++ wordHexChars h.h3 ++
    wordHexChars h.h4 ++ wordHexChars h.h5 ++ wordHexChars h.h6 ++ wordHexChars h.h7)

/-- Cache key construction from the hashed-cache module: the prefix, a colon,
and the hex SHA-256 digest of the raw key. -/
def buildHashedCacheKey (pfx rawKey : String) : String :=
  pfx ++ ":" ++ sha256Hex rawKey

/-- Environment configuration captured at module load in
src/shared/lib/redis.ts: the store REST URL and auth token, each absent or
present (possibly empty). -/
structure RedisConfig where
  url : Option String
  token : Option String

/-- JavaScript truthiness of an optional environment string: false for an
absent value and for the empty string. -/
def jsTruthy : Option String → Bool
  | none => false
  | some s => !(s == "")

/-- hasRedisConfig from src/shared/lib/redis.ts:
Boolean(REDIS_URL && REDIS_TOKEN), the conjunction of both truthiness
checks. -/
def hasRedisConfig (cfg : RedisConfig) : Bool :=
  jsTruthy cfg.url && jsTruthy cfg.token

/-- An HTTP response as redisFetch observes it: ok flag, status code, body
text. -/
structure HttpResponse where
  ok : Bool
  status : Nat
  text : String

/-- A fetch transport: maps the pipeline request payload (the JSON array of
string commands posted as the body) and a transport state to a new state and
a response. -/
def FetchFn (σ : Type) : Type := List (List String) → σ → σ × HttpResponse

/-- Outcome of a call through redisFetch: final transport state, the result
(ok value or a thrown error message), and how many HTTP requests were made. -/
structure FetchOut (σ : Type) (α : Type) where
  state : σ
  result : Except String α
  requests : Nat

/-- redisFetch from src/shared/lib/redis.ts: throws when configuration is
missing without any request; otherwise performs exactly one fetch, throws on
a non-ok response with the status code and body text in the message, and
otherwise returns the parsed response JSON. -/
def redisFetch {σ : Type} (cfg : RedisConfig) (fetch : FetchFn σ)
    (body : List (List String)) (s : σ) : FetchOut σ Json :=
  if jsTruthy cfg.url = false || jsTruthy cfg.token = false then
    ⟨s, .error "Redis config missing.", 0⟩
  else
    let p := fetch body s
    if p.2.ok = false then
      ⟨p.1, .error ("Redis request failed: " ++ String.mk (natChars p.2.status)
        ++ " " ++ p.2.text), 1⟩
    else
      match jsonParse p.2.text with
      | some j => ⟨p.1, .ok j, 1⟩
      | none => ⟨p.1, .error "Unexpected end of JSON input", 1⟩

/-- A redis command token: commands are arrays of strings and numbers. -/
inductive RedisToken where
  | tstr (s : String)
  | tnum (n : Nat)

/-- JavaScript String() conversion applied to each command token. -/
def tokenToString : RedisToken → String
  | .tstr s => s
  | .tnum n => String.mk (natChars n)

/-- redisPipeline from src/shared/lib/redis.ts: maps every command token to
its string form and posts the batch in one request. -/
def redisPipeline {σ : Type} (cfg : RedisConfig) (fetch : FetchFn σ)
    (commands : List (List RedisToken)) (s : σ) : FetchOut σ Json :=
  redisFetch cfg fetch (commands.map (fun cmd => cmd.map tokenToString)) s

/-- Membership lookup in a parsed JSON object, first match wins. -/
def lookupMember (key : String) : List (String × Json) → Option Json
  | [] => none
  | (k, v) :: rest => if k = key then some v else lookupMember key rest

/-- JavaScript property access on a parsed JSON value; none models
undefined. -/
def jsGetProp (j : Json) (key : String) : Option Json :=
  match j with
  | .object kvs => lookupMember key kvs
  | _ => none

/-- JavaScript indexing into a parsed JSON value; none models undefined
(out of bounds, or indexing a non-array). -/
def jsIndex (j : Json) (i : Nat) : Option Json :=
  match j with
  | .array xs => xs.get? i
  | _ => none

/-- The expression results[0]?.result from redisGetJson: undefined when the
array is empty, when the first element is null or undefined, or when the
element has no result property. -/
def firstResult (j : Json) : Option Json :=
  match jsIndex j 0 with
  | none => none
  | some e => jsGetProp e "result"

/-- redisGetJson from src/shared/lib/redis.ts: issue a GET through the
pipeline; a null (or undefined) first result is a miss; a string result is
parsed as JSON; any other value is returned unchanged. -/
def redisGetJson {σ : Type} (cfg : RedisConfig) (fetch : FetchFn σ) (key : String)
    (s : σ) : FetchOut σ (Option Json) :=
  match redisPipeline cfg fetch [[.tstr "GET", .tstr key]] s with
  | ⟨s2, .error e, n⟩ => ⟨s2, .error e, n⟩
  | ⟨s2, .ok results, n⟩ =>
    match firstResult results with
    | none => ⟨s2, .ok none, n⟩
    | some Json.null => ⟨s2, .ok none, n⟩
    | some (Json.string sv) =>
      match jsonParse sv with
      | some v => ⟨s2, .ok (some v), n⟩
      | none => ⟨s2, .error "Unexpected token in JSON", n⟩
    | some v => ⟨s2, .ok (some v), n⟩

/-- redisSetJson from src/shared/lib/redis.ts: one pipeline call carrying
SET key payload EX ttl, with the JSON-serialized value; per-command results
are discarded. -/
def redisSetJson {σ : Type} (cfg : RedisConfig) (fetch : FetchFn σ) (key : String)
    (value : Json) (ttlSeconds : Nat) (s : σ) : FetchOut σ Unit :=
  match redisPipeline cfg fetch
      [[.tstr "SET", .tstr key, .tstr (jsonStringify value), .tstr "EX", .tnum ttlSeconds]] s with
  | ⟨s2, .error e, n⟩ => ⟨s2, .error e, n⟩
  | ⟨s2, .ok _, n⟩ => ⟨s2, .ok (), n⟩

/-- getRedisCachedJson from the hashed-cache module (src/unnamed/part_007):
an immediate miss when the store is unconfigured, otherwise a remote get on
the hashed key with every thrown error swallowed into a miss. -/
def getRedisCachedJson {σ : Type} (cfg : RedisConfig) (fetch : FetchFn σ)
    (pfx rawKey : String) (s : σ) : FetchOut σ (Option Json) :=
  if hasRedisConfig cfg = false then ⟨s, .ok none, 0⟩
  else
    match redisGetJson cfg fetch (buildHashedCacheKey pfx rawKey) s with
    | ⟨s2, .ok v, n⟩ => ⟨s2, .ok v, n⟩
    | ⟨s2, .error _, n⟩ => ⟨s2, .ok none, n⟩

/-- setRedisCachedJson from the hashed-cache module (src/unnamed/part_007):
a no-op when the store is unconfigured, otherwise a remote set on the hashed
key with every thrown error swallowed. -/
def setRedisCachedJson {σ : Type} (cfg : RedisConfig) (fetch : FetchFn σ)
    (pfx rawKey : String) (value : Json) (ttlSeconds : Nat) (s : σ) : FetchOut σ Unit :=
  if hasRedisConfig cfg = false then ⟨s, .ok (), 0⟩
  else
    match redisSetJson cfg fetch (buildHashedCacheKey pfx rawKey) value ttlSeconds s with
    | ⟨s2, .ok _, n⟩ => ⟨s2, .ok (), n⟩
    | ⟨s2, .error _, n⟩ => ⟨s2, .ok (), n⟩

/-- Lookup in the remote store contents, an association list from key to the
stored string. -/
def storeLookup (key : String) : List (String × String) → Option String
  | [] => none
  | (k, v) :: rest => if k = key then some v else storeLookup key rest

/-- Modelled from the spec, section 6 (external interface of the remote
store, which is not part of this repository): execution of one pipeline
command by a reachable store.  GET returns the stored string or null; SET
stores the string value under the key and answers OK. -/
def execCommand (store : List (String × String)) (cmd : List String) :
    List (String × String) × Json :=
  match cmd with
  | [c, k] =>
    if c = "GET" then
      (store, match storeLookup k store with
        | some v => Json.string v
        | none => Json.null)
    else (store, Json.null)
  | [c, k, v, e, _t] =>
    if c = "SET" ∧ e = "EX" then ((k, v) :: store, Json.string "OK")
    else (store, Json.null)
  | _ => (store, Json.null)

/-- Execute a whole pipeline in order, collecting per-command results in
submission order. -/
def execPipeline (store : List (String × String)) :
    List (List String) → List (String × String) × List Json
  | [] => (store, [])
  | cmd :: rest =>
    let p := execCommand store cmd
    let q := execPipeline p.1 rest
    (q.1, p.2 :: q.2)

/-- Modelled from the spec, section 6: a configured and reachable remote
store as a transport.  It executes the commands and responds 200 with a JSON
array of result objects, one per command, in order. -/
def storeFetch : FetchFn (List (String × String)) := fun payload store =>
  let p := execPipeline store payload
  (p.1, ⟨true, 200, jsonStringify (Json.array (p.2.map (fun r => Json.object [("result", r)])))⟩)

/-- A transport that returns a fixed response and keeps no state, used to
model a single arbitrary (possibly failing) HTTP exchange. -/
def constFetch (resp : HttpResponse) : FetchFn Unit := fun _ s => (s, resp)

/-- Body of the health-check GET response (src/unnamed/part_002): either the
generic ok object or the detailed object with the redis flag, both rate
limiter statistics snapshots, and a timestamp.  The statistics type is
abstract to this handler. -/
inductive HealthBody (τ : Type) where
  | okOnly
  | detailed (redisEnabled : Bool) (translate : τ) (analyze : τ) (timestamp : String)

/-- isAuthorized from the health route:
Boolean(secret && token && token === secret). -/
def isAuthorized (secret tok : Option String) : Bool :=
  jsTruthy secret && jsTruthy tok && (tok == secret)

/-- The health-check GET handler from src/unnamed/part_002, returning the
HTTP status and response body. -/
def healthGET {τ : Type} (secret tok : Option String) (cfg : RedisConfig)
    (tStats aStats : τ) (timestamp : String) : Nat × HealthBody τ :=
  if jsTruthy secret = false || isAuthorized secret tok = false then
    (200, .okOnly)
  else
    (200, .detailed (hasRedisConfig cfg) tStats aStats timestamp)

/-- Modelled from the spec: one rate window of the fixed-window limiter
(shared/lib/rateLimit is referenced by the health route but absent from the
available sources); window start time and request count, per identity and
bucket. -/
structure RateWindow where
  windowStart : Nat
  count : Nat

/-- Modelled from the spec: the limiter decision, allow or deny with a
retry-after hint in seconds. -/
inductive RateDecision where
  | allow
  | deny (retryAfter : Nat)

/-- Modelled from the spec, section 4.4: the fixed-window check for one
identity and bucket.  Uninitialized or expired windows reset to count 1 at
the current time; active windows increment the count and compare with the
limit, denying with retryAfter = windowLengthSeconds - (now - windowStart). -/
def rateCheck (limit windowLengthSeconds now : Nat) (w : Option RateWindow) :
    RateDecision × RateWindow :=
  match w with
  | none =>
    if 1 ≤ limit then (.allow, ⟨now, 1⟩)
    else (.deny windowLengthSeconds, ⟨now, 1⟩)
  | some win =>
    if now - win.windowStart < windowLengthSeconds then
      if win.count + 1 ≤ limit then (.allow, ⟨win.windowStart, win.count + 1⟩)
      else (.deny (windowLengthSeconds - (now - win.windowStart)),
        ⟨win.windowStart, win.count + 1⟩)
    else
      if 1 ≤ limit then (.allow, ⟨now, 1⟩)
      else (.deny windowLengthSeconds, ⟨now, 1⟩)

/-- Modelled from the spec: a sequence of checks at given times for one
identity and bucket, threading the window state. -/
def runChecks (limit windowLengthSeconds : Nat) (w : Option RateWindow) :
    List Nat → List RateDecision × Option RateWindow
  | [] => ([], w)
  | t :: ts =>
    let p := rateCheck limit windowLengthSeconds t w
    let q := runChecks limit windowLengthSeconds (some p.2) ts
    (p.1 :: q.1, q.2)

/-- Recognizer for lowercase hexadecimal digit characters. -/
def isLowerHexChar (c : Char) : Bool :=
  c.isDigit || (97 ≤ c.toNat && c.toNat ≤ 102)

theorem hexChar_isLowerHex (n : Nat) : isLowerHexChar (hexChar n) = true := by
  by_cases h : n < 16
  · interval_cases n <;> decide
  · rw [hexChar, List.getD_eq_default]
    · decide
    · simp only [hexDigits, List.length_cons, List.length_nil]
      omega

theorem sha256Hex_length (s : String) : (sha256Hex s).length = 64 := by
  simp only [sha256Hex, String.length, wordHexChars]
  simp

theorem sha256Hex_chars (s : String) : ∀ c ∈ (sha256Hex s).data, isLowerHexChar c = true := by
  intro c hc
  have key : ∀ w, c ∈ wordHexChars w → isLowerHexChar c = true := by
    intro w hw
    simp only [wordHexChars, List.mem_cons, List.not_mem_nil, or_false] at hw
    rcases hw with rfl | rfl | rfl | rfl | rfl | rfl | rfl | rfl <;> exact hexChar_isLowerHex _
  simp only [sha256Hex, List.mem_append] at hc
  rcases hc with ((((((h | h) | h) | h) | h) | h) | h) | h <;> exact key _ h

theorem hasRedisConfig_truthy {cfg : RedisConfig} (h : hasRedisConfig cfg = true) :
    jsTruthy cfg.url = true ∧ jsTruthy cfg.token = true := by
  simpa [hasRedisConfig, Bool.and_eq_true] using h

/-- C3: For every prefix and rawKey, buildHashedCacheKey equals the prefix,
a colon, and the lowercase hexadecimal SHA-256 digest of the raw key, a
fixed 64-character hex suffix; equal inputs always produce the identical
string. -/
theorem buildHashedCacheKey_spec (pfx rawKey : String) :
    buildHashedCacheKey pfx rawKey = pfx ++ ":" ++ sha256Hex rawKey ∧
    (sha256Hex rawKey).length = 64 ∧
    (∀ c ∈ (sha256Hex rawKey).data, isLowerHexChar c = true) ∧
    ∀ pfx2 rawKey2, pfx = pfx2 → rawKey = rawKey2 →
      buildHashedCacheKey pfx rawKey = buildHashedCacheKey pfx2 rawKey2 := by
  refine ⟨rfl, sha256Hex_length rawKey, sha256Hex_chars rawKey, ?_⟩
  intro pfx2 rawKey2 h1 h2
  rw [h1, h2]

/-- Witness for C3 at concrete inputs. -/
theorem buildHashedCacheKey_spec_witness :
    buildHashedCacheKey "translate" "hello"
      = "translate" ++ ":" ++ sha256Hex "hello" ∧
    (sha256Hex "hello").length = 64 := by
  have h := buildHashedCacheKey_spec "translate" "hello"
  exact ⟨h.1, h.2.1⟩

/-- C7: hasRedisConfig is true exactly when both captured environment values
are present and non-empty; as a function of the configuration captured at
module load its answer never changes between calls. -/
theorem hasRedisConfig_spec (cfg : RedisConfig) :
    (hasRedisConfig cfg = true ↔
      (∃ u, cfg.url = some u ∧ u ≠ "") ∧ (∃ t, cfg.token = some t ∧ t ≠ "")) ∧
    ∀ cfg2, cfg2 = cfg → hasRedisConfig cfg2 = hasRedisConfig cfg := by
  constructor
  · obtain ⟨u, t⟩ := cfg
    cases u <;> cases t <;>
      simp [hasRedisConfig, jsTruthy]
  · intro cfg2 h
    rw [h]

/-- Witness for C7 at a concrete configuration. -/
theorem hasRedisConfig_spec_witness :
    hasRedisConfig ⟨some "https://store.example", some "tok"⟩ = true ∧
    hasRedisConfig ⟨some "https://store.example", none⟩ = false ∧
    hasRedisConfig ⟨some "", some "tok"⟩ = false := by
  have h1 := (hasRedisConfig_spec ⟨some "https://store.example", some "tok"⟩).1
  refine ⟨h1.mpr ⟨⟨"https://store.example", rfl, by decide⟩, ⟨"tok", rfl, by decide⟩⟩, ?_, ?_⟩
  · decide
  · decide

/-- C8: the health-check handler answers with the detailed body (rate-limiter
statistics and the redis flag) exactly when a non-empty secret is configured
and the request token equals it; every other request gets the generic ok
body with status 200. -/
theorem healthGET_gating {τ : Type} (secret tok : Option String) (cfg : RedisConfig)
    (tStats aStats : τ) (ts : String) :
    ((∃ sv, secret = some sv ∧ sv ≠ "" ∧ tok = some sv) →
      healthGET secret tok cfg tStats aStats ts
        = (200, .detailed (hasRedisConfig cfg) tStats aStats ts)) ∧
    ((¬ ∃ sv, secret = some sv ∧ sv ≠ "" ∧ tok = some sv) →
      healthGET secret tok cfg tStats aStats ts = (200, .okOnly)) := by
  constructor
  · rintro ⟨sv, rfl, hne, rfl⟩
    simp [healthGET, isAuthorized, jsTruthy, hne]
  · intro hno
    rcases hsec : secret with _ | sv
    · simp [healthGET, jsTruthy]
    · by_cases hne : sv = ""
      · subst hne
        simp [healthGET, jsTruthy]
      · rcases htok : tok with _ | tv
        · simp [healthGET, isAuthorized, jsTruthy]
        · have hneq : tv ≠ sv := by
            intro h
            exact hno ⟨sv, hsec, hne, by rw [htok, h]⟩
          simp [healthGET, isAuthorized, jsTruthy, hne, hneq]

/-- Witness for C8 at concrete inputs. -/
theorem healthGET_gating_witness :
    healthGET (some "s3cret") (some "s3cret") ⟨none, none⟩ (0 : Nat) 0 "t"
      = (200, .detailed (hasRedisConfig ⟨none, none⟩) 0 0 "t") ∧
    healthGET (some "s3cret") (some "wrong") ⟨none, none⟩ (0 : Nat) 0 "t"
      = (200, .okOnly) := by
  constructor
  · exact (healthGET_gating (some "s3cret") (some "s3cret") ⟨none, none⟩ 0 0 "t").1
      ⟨"s3cret", rfl, by decide, rfl⟩
  · refine (healthGET_gating (some "s3cret") (some "wrong") ⟨none, none⟩ 0 0 "t").2 ?_
    rintro ⟨sv, hsv, hne, htok⟩
    cases hsv
    exact absurd (Option.some.inj htok) (by decide)

/-- C9: with the secret unset or empty, the health-check response is the
generic ok body regardless of the presented token, so any two requests are
indistinguishable and no operational state is disclosed. -/
theorem healthGET_noninterference {τ : Type} (secret : Option String)
    (hsec : secret = none ∨ secret = some "") (tok1 tok2 : Option String)
    (cfg : RedisConfig) (tStats aStats : τ) (ts : String) :
    healthGET secret tok1 cfg tStats aStats ts = (200, .okOnly) ∧
    healthGET secret tok1 cfg tStats aStats ts
      = healthGET secret tok2 cfg tStats aStats ts := by
  rcases hsec with rfl | rfl
  · exact ⟨by simp [healthGET, jsTruthy], by simp [healthGET, jsTruthy]⟩
  · exact ⟨by simp [healthGET, jsTruthy], by simp [healthGET, jsTruthy]⟩

/-- Witness for C9: the empty secret with the token equal to the empty
string (equal to the secret) still yields only the generic body. -/
theorem healthGET_noninterference_witness :
    healthGET (some "") (some "") ⟨some "u", some "t"⟩ (0 : Nat) 0 "t" = (200, .okOnly) ∧
    healthGET (some "") (some "") ⟨some "u", some "t"⟩ (0 : Nat) 0 "t"
      = healthGET (some "") none ⟨some "u", some "t"⟩ 0 0 "t" :=
  healthGET_noninterference (some "") (Or.inr rfl) (some "") none ⟨some "u", some "t"⟩ 0 0 "t"

theorem redisFetch_config_missing {σ : Type} {cfg : RedisConfig}
    (hcfg : hasRedisConfig cfg = false) (fetch : FetchFn σ) (body : List (List String))
    (s : σ) : redisFetch cfg fetch body s = ⟨s, .error "Redis config missing.", 0⟩ := by
  have hor : jsTruthy cfg.url = false ∨ jsTruthy cfg.token = false := by
    by_contra hc
    push_neg at hc
    obtain ⟨h1, h2⟩ := hc
    rw [Ne, Bool.not_eq_false] at h1 h2
    simp [hasRedisConfig, h1, h2] at hcfg
  rcases hor with h | h <;> simp [redisFetch, h]

/-- C1: Fail-open of the hashed cache.  When the store is unconfigured both
helpers return immediately (null and unit) without any remote request; when
the underlying remote get or set throws, the helpers swallow the error and
return null and unit; in every case neither helper ever propagates an
error. -/
theorem cache_failOpen {σ : Type} (cfg : RedisConfig) (fetch : FetchFn σ)
    (pfx rawKey : String) (value : Json) (ttl : Nat) (s : σ) :
    (hasRedisConfig cfg = false →
      getRedisCachedJson cfg fetch pfx rawKey s = ⟨s, .ok none, 0⟩ ∧
      setRedisCachedJson cfg fetch pfx rawKey value ttl s = ⟨s, .ok (), 0⟩) ∧
    (∀ s2 e n, redisGetJson cfg fetch (buildHashedCacheKey pfx rawKey) s
        = ⟨s2, .error e, n⟩ →
      getRedisCachedJson cfg fetch pfx rawKey s = ⟨s2, .ok none, n⟩) ∧
    (∀ s2 e n, redisSetJson cfg fetch (buildHashedCacheKey pfx rawKey) value ttl s
        = ⟨s2, .error e, n⟩ →
      setRedisCachedJson cfg fetch pfx rawKey value ttl s = ⟨s2, .ok (), n⟩) ∧
    (∃ r, (getRedisCachedJson cfg fetch pfx rawKey s).result = .ok r) ∧
    (setRedisCachedJson cfg fetch pfx rawKey value ttl s).result = .ok () := by
  refine ⟨?_, ?_, ?_, ?_, ?_⟩
  · intro hcfg
    exact ⟨by simp [getRedisCachedJson, hcfg], by simp [setRedisCachedJson, hcfg]⟩
  · intro s2 e n h
    by_cases hcfg : hasRedisConfig cfg = false
    · have hr : redisGetJson cfg fetch (buildHashedCacheKey pfx rawKey) s
          = ⟨s, .error "Redis config missing.", 0⟩ := by
        simp [redisGetJson, redisPipeline, redisFetch_config_missing hcfg]
      rw [hr] at h
      cases h
      simp [getRedisCachedJson, hcfg]
    · rw [Bool.not_eq_false] at hcfg
      simp [getRedisCachedJson, hcfg, h]
  · intro s2 e n h
    by_cases hcfg : hasRedisConfig cfg = false
    · have hr : redisSetJson cfg fetch (buildHashedCacheKey pfx rawKey) value ttl s
          = ⟨s, .error "Redis config missing.", 0⟩ := by
        simp [redisSetJson, redisPipeline, redisFetch_config_missing hcfg]
      rw [hr] at h
      cases h
      simp [setRedisCachedJson, hcfg]
    · rw [Bool.not_eq_false] at hcfg
      simp [setRedisCachedJson, hcfg, h]
  · by_cases hcfg : hasRedisConfig cfg = false
    · exact ⟨none, by simp [getRedisCachedJson, hcfg]⟩
    · rw [Bool.not_eq_false] at hcfg
      rcases hq : redisGetJson cfg fetch (buildHashedCacheKey pfx rawKey) s with ⟨s2, r, n⟩
      cases r with
      | ok v => exact ⟨v, by simp [getRedisCachedJson, hcfg, hq]⟩
      | error e => exact ⟨none, by simp [getRedisCachedJson, hcfg, hq]⟩
  · by_cases hcfg : hasRedisConfig cfg = false
    · simp [setRedisCachedJson, hcfg]
    · rw [Bool.not_eq_false] at hcfg
      rcases hq : redisSetJson cfg fetch (buildHashedCacheKey pfx rawKey) value ttl s
        with ⟨s2, r, n⟩
      cases r with
      | ok v => simp [setRedisCachedJson, hcfg, hq]
      | error e => simp [setRedisCachedJson, hcfg, hq]

/-- Witness for C1: an unconfigured store misses without a request, and a
configured store with a failing transport swallows the thrown error. -/
theorem cache_failOpen_witness :
    (getRedisCachedJson ⟨none, none⟩ (constFetch ⟨false, 500, "boom"⟩) "p" "k" ()
        = ⟨(), .ok none, 0⟩ ∧
      setRedisCachedJson ⟨none, none⟩ (constFetch ⟨false, 500, "boom"⟩) "p" "k"
          (Json.string "v") 60 () = ⟨(), .ok (), 0⟩) ∧
    ∃ r, (getRedisCachedJson ⟨some "u", some "t"⟩ (constFetch ⟨false, 500, "boom"⟩)
        "p" "k" ()).result = .ok r :=
  ⟨(cache_failOpen ⟨none, none⟩ (constFetch ⟨false, 500, "boom"⟩) "p" "k"
      (Json.string "v") 60 ()).1 rfl,
    (cache_failOpen ⟨some "u", some "t"⟩ (constFetch ⟨false, 500, "boom"⟩) "p" "k"
      (Json.string "v") 60 ()).2.2.2.1⟩

/-- C5: a configured pipeline call whose HTTP response is not ok throws an
error message carrying the status code and the response body, after exactly
one request and no retry. -/
theorem redisPipeline_transport_error {σ : Type} (cfg : RedisConfig) (fetch : FetchFn σ)
    (commands : List (List RedisToken)) (s s2 : σ) (resp : HttpResponse)
    (hcfg : hasRedisConfig cfg = true)
    (hfetch : fetch (commands.map (fun cmd => cmd.map tokenToString)) s = (s2, resp))
    (hok : resp.ok = false) :
    redisPipeline cfg fetch commands s
      = ⟨s2, .error ("Redis request failed: " ++ String.mk (natChars resp.status)
          ++ " " ++ resp.text), 1⟩ := by
  obtain ⟨hu, ht⟩ := hasRedisConfig_truthy hcfg
  simp [redisPipeline, redisFetch, hu, ht, hfetch, hok]

/-- Witness for C5 at a concrete 500 response. -/
theorem redisPipeline_transport_error_witness :
    redisPipeline ⟨some "u", some "t"⟩ (constFetch ⟨false, 500, "boom"⟩)
        [[.tstr "GET", .tstr "k"]] ()
      = ⟨(), .error ("Redis request failed: " ++ String.mk (natChars 500) ++ " " ++ "boom"),
          1⟩ :=
  redisPipeline_transport_error ⟨some "u", some "t"⟩ (constFetch ⟨false, 500, "boom"⟩)
    [[.tstr "GET", .tstr "k"]] () () ⟨false, 500, "boom"⟩ (by decide) rfl rfl

/-- A 200 response whose body is the JSON array of pipeline result entries. -/
def pipelineResponse (entries : List Json) : HttpResponse :=
  ⟨true, 200, jsonStringify (Json.array entries)⟩

theorem redisGetJson_entries {cfg : RedisConfig} (hcfg : hasRedisConfig cfg = true)
    (key : String) (entries : List Json) :
    redisGetJson cfg (constFetch (pipelineResponse entries)) key ()
      = match firstResult (Json.array entries) with
        | none => ⟨(), .ok none, 1⟩
        | some Json.null => ⟨(), .ok none, 1⟩
        | some (Json.string sv) =>
          match jsonParse sv with
          | some v => ⟨(), .ok (some v), 1⟩
          | none => ⟨(), .error "Unexpected token in JSON", 1⟩
        | some v => ⟨(), .ok (some v), 1⟩ := by
  obtain ⟨hu, ht⟩ := hasRedisConfig_truthy hcfg
  have hpipe : redisPipeline cfg (constFetch (pipelineResponse entries))
      [[.tstr "GET", .tstr key]] () = ⟨(), .ok (Json.array entries), 1⟩ := by
    simp [redisPipeline, redisFetch, hu, ht, constFetch, pipelineResponse,
      jsonParse_stringify]
  simp only [redisGetJson, hpipe]

/-- C6: getJSON semantics over the first pipeline result: a null result gives
null, a string result is parsed as JSON, and an already-structured result is
returned unchanged. -/
theorem redisGetJson_semantics (cfg : RedisConfig) (key : String) (entries : List Json)
    (hcfg : hasRedisConfig cfg = true) :
    (firstResult (Json.array entries) = none →
      redisGetJson cfg (constFetch (pipelineResponse entries)) key ()
        = ⟨(), .ok none, 1⟩) ∧
    (firstResult (Json.array entries) = some Json.null →
      redisGetJson cfg (constFetch (pipelineResponse entries)) key ()
        = ⟨(), .ok none, 1⟩) ∧
    (∀ sv v, firstResult (Json.array entries) = some (Json.string sv) →
      jsonParse sv = some v →
      redisGetJson cfg (constFetch (pipelineResponse entries)) key ()
        = ⟨(), .ok (some v), 1⟩) ∧
    (∀ v, firstResult (Json.array entries) = some v → (∀ sv, v ≠ Json.string sv) →
      v ≠ Json.null →
      redisGetJson cfg (constFetch (pipelineResponse entries)) key ()
        = ⟨(), .ok (some v), 1⟩) := by
  refine ⟨?_, ?_, ?_, ?_⟩
  · intro h
    rw [redisGetJson_entries hcfg key entries, h]
  · intro h
    rw [redisGetJson_entries hcfg key entries, h]
  · intro sv v h hp
    rw [redisGetJson_entries hcfg key entries, h]
    dsimp only
    rw [hp]
  · intro v h hs hn
    rw [redisGetJson_entries hcfg key entries, h]
    cases v with
    | null => exact absurd rfl hn
    | string sv => exact absurd rfl (hs sv)
    | boolean b => rfl
    | number m => rfl
    | array xs => rfl
    | object kvs => rfl

/-- Witness for C6: an already-structured (numeric) first result is returned
unchanged. -/
theorem redisGetJson_semantics_witness :
    redisGetJson ⟨some "u", some "t"⟩
        (constFetch (pipelineResponse [Json.object [("result", Json.number 5)]])) "k" ()
      = ⟨(), .ok (some (Json.number 5)), 1⟩ :=
  (redisGetJson_semantics ⟨some "u", some "t"⟩ "k" [Json.object [("result", Json.number 5)]]
      (by decide)).2.2.2 (Json.number 5) rfl (fun sv h => Json.noConfusion h)
    (fun h => Json.noConfusion h)

/-- C10: degenerate pipeline responses are safe: an empty result array and a
first entry with no result field both yield a null answer rather than a
failure. -/
theorem redisGetJson_degenerate (cfg : RedisConfig) (key : String)
    (hcfg : hasRedisConfig cfg = true) :
    redisGetJson cfg (constFetch (pipelineResponse [])) key () = ⟨(), .ok none, 1⟩ ∧
    ∀ kvs, lookupMember "result" kvs = none →
      redisGetJson cfg (constFetch (pipelineResponse [Json.object kvs])) key ()
        = ⟨(), .ok none, 1⟩ := by
  constructor
  · rw [redisGetJson_entries hcfg]
    rfl
  · intro kvs h
    rw [redisGetJson_entries hcfg]
    have hfr : firstResult (Json.array [Json.object kvs]) = none := by
      simp [firstResult, jsIndex, jsGetProp, h]
    rw [hfr]

/-- Witness for C10: the empty response array, and an entry carrying only an
error field. -/
theorem redisGetJson_degenerate_witness :
    redisGetJson ⟨some "u", some "t"⟩ (constFetch (pipelineResponse [])) "k" ()
      = ⟨(), .ok none, 1⟩ ∧
    redisGetJson ⟨some "u", some "t"⟩
        (constFetch (pipelineResponse [Json.object [("error", Json.string "oops")]])) "k" ()
      = ⟨(), .ok none, 1⟩ :=
  ⟨(redisGetJson_degenerate ⟨some "u", some "t"⟩ "k" (by decide)).1,
    (redisGetJson_degenerate ⟨some "u", some "t"⟩ "k" (by decide)).2
      [("error", Json.string "oops")] (by simp [lookupMember])⟩

theorem runChecks_allows (limit wl t0 : Nat) :
    ∀ (ts : List Nat) (c : Nat), (∀ t ∈ ts, t - t0 < wl) → c + ts.length ≤ limit →
      runChecks limit wl (some ⟨t0, c⟩) ts
        = (List.replicate ts.length RateDecision.allow, some ⟨t0, c + ts.length⟩) := by
  intro ts
  induction ts with
  | nil =>
    intro c _ _
    simp [runChecks]
  | cons t ts ih =>
    intro c hin hc
    have ht : t - t0 < wl := hin t (by simp)
    have hle : c + 1 ≤ limit := by
      simp only [List.length_cons] at hc
      omega
    have hstep : rateCheck limit wl t (some ⟨t0, c⟩) = (.allow, ⟨t0, c + 1⟩) := by
      simp only [rateCheck]
      rw [if_pos ht, if_pos hle]
    have hrest := ih (c + 1) (fun x hx => hin x (by simp [hx]))
      (by simp only [List.length_cons] at hc; omega)
    have harith : c + 1 + ts.length = c + (ts.length + 1) := by omega
    simp only [runChecks, hstep, hrest, List.length_cons, List.replicate_succ, harith]

/-- C2: with the fixed-window limiter, exactly limit requests inside one
window are all allowed, leaving a full window, and the next request in the
same window is denied with retryAfter equal to the remaining window time,
which is positive and at most the window length. -/
theorem rateLimiter_fixed_window (limit wl t0 tNext : Nat) (rest : List Nat)
    (hlim : 1 ≤ limit)
    (hlen : (t0 :: rest).length = limit)
    (hwin : ∀ t ∈ t0 :: rest, t - t0 < wl)
    (hnext : tNext - t0 < wl) :
    (runChecks limit wl none (t0 :: rest)).1 = List.replicate limit RateDecision.allow ∧
    (runChecks limit wl none (t0 :: rest)).2 = some ⟨t0, limit⟩ ∧
    rateCheck limit wl tNext (some ⟨t0, limit⟩)
      = (.deny (wl - (tNext - t0)), ⟨t0, limit + 1⟩) ∧
    0 < wl - (tNext - t0) ∧ wl - (tNext - t0) ≤ wl := by
  simp only [List.length_cons] at hlen
  have hfirst : rateCheck limit wl t0 none = (.allow, ⟨t0, 1⟩) := by
    simp only [rateCheck]
    rw [if_pos hlim]
  have hrest := runChecks_allows limit wl t0 rest 1 (fun x hx => hwin x (by simp [hx]))
    (by omega)
  have hrun : runChecks limit wl none (t0 :: rest)
      = (RateDecision.allow :: List.replicate rest.length RateDecision.allow,
          some ⟨t0, 1 + rest.length⟩) := by
    simp only [runChecks, hfirst, hrest]
  refine ⟨?_, ?_, ?_, ?_, ?_⟩
  · rw [hrun]
    rw [show limit = rest.length + 1 by omega, List.replicate_succ]
  · rw [hrun]
    rw [show 1 + rest.length = limit by omega]
  · simp only [rateCheck]
    rw [if_pos hnext, if_neg (by omega : ¬ limit + 1 ≤ limit)]
  · omega
  · omega

/-- Witness for C2: limit 2 and window 60 starting at time 10; requests at
times 10 and 30 are allowed, and a third at time 50 is denied with
retryAfter 20. -/
theorem rateLimiter_fixed_window_witness :
    (runChecks 2 60 none [10, 30]).1 = List.replicate 2 RateDecision.allow ∧
    (runChecks 2 60 none [10, 30]).2 = some ⟨10, 2⟩ ∧
    rateCheck 2 60 50 (some ⟨10, 2⟩) = (.deny (60 - (50 - 10)), ⟨10, 2 + 1⟩) ∧
    0 < 60 - (50 - 10) ∧ 60 - (50 - 10) ≤ 60 :=
  rateLimiter_fixed_window 2 60 10 50 [30] (by decide) rfl (by decide) (by decide)

/-- C4: with a configured and reachable store, a cache set followed
immediately by a cache get on the same prefix and raw key returns a value
equal to the one stored. -/
theorem cache_roundTrip (cfg : RedisConfig) (pfx rawKey : String) (v : Json)
    (ttl : Nat) (store : List (String × String))
    (hcfg : hasRedisConfig cfg = true) (_httl : 0 < ttl) :
    setRedisCachedJson cfg storeFetch pfx rawKey v ttl store
      = ⟨(buildHashedCacheKey pfx rawKey, jsonStringify v) :: store, .ok (), 1⟩ ∧
    (getRedisCachedJson cfg storeFetch pfx rawKey
        ((buildHashedCacheKey pfx rawKey, jsonStringify v) :: store)).result
      = .ok (some v) := by
  obtain ⟨hu, ht⟩ := hasRedisConfig_truthy hcfg
  have hexecSet : execPipeline store
      [["SET", buildHashedCacheKey pfx rawKey, jsonStringify v, "EX",
        String.mk (natChars ttl)]]
      = ((buildHashedCacheKey pfx rawKey, jsonStringify v) :: store, [Json.string "OK"]) := by
    simp [execPipeline, execCommand]
  have hpipeSet : redisPipeline cfg storeFetch
      [[.tstr "SET", .tstr (buildHashedCacheKey pfx rawKey), .tstr (jsonStringify v),
        .tstr "EX", .tnum ttl]] store
      = ⟨(buildHashedCacheKey pfx rawKey, jsonStringify v) :: store,
          .ok (Json.array [Json.object [("result", Json.string "OK")]]), 1⟩ := by
    simp [redisPipeline, redisFetch, hu, ht, tokenToString, storeFetch, hexecSet,
      jsonParse_stringify]
  have hexecGet : execPipeline
      ((buildHashedCacheKey pfx rawKey, jsonStringify v) :: store)
      [["GET", buildHashedCacheKey pfx rawKey]]
      = ((buildHashedCacheKey pfx rawKey, jsonStringify v) :: store,
          [Json.string (jsonStringify v)]) := by
    simp [execPipeline, execCommand, storeLookup]
  have hpipeGet : redisPipeline cfg storeFetch
      [[.tstr "GET", .tstr (buildHashedCacheKey pfx rawKey)]]
      ((buildHashedCacheKey pfx rawKey, jsonStringify v) :: store)
      = ⟨(buildHashedCacheKey pfx rawKey, jsonStringify v) :: store,
          .ok (Json.array [Json.object [("result", Json.string (jsonStringify v))]]), 1⟩ := by
    simp [redisPipeline, redisFetch, hu, ht, tokenToString, storeFetch, hexecGet,
      jsonParse_stringify]
  constructor
  · simp only [setRedisCachedJson, hcfg]
    simp only [redisSetJson, hpipeSet]
    rfl
  · simp only [getRedisCachedJson, hcfg]
    simp only [redisGetJson, hpipeGet]
    simp [firstResult, jsIndex, jsGetProp, lookupMember, jsonParse_stringify]

/-- Witness for C4 at concrete inputs: scenario B of the specification. -/
theorem cache_roundTrip_witness :
    setRedisCachedJson ⟨some "u", some "t"⟩ storeFetch "translate" "en:hello"
        (Json.object [("text", Json.string "hola")]) 3600 []
      = ⟨[(buildHashedCacheKey "translate" "en:hello",
            jsonStringify (Json.object [("text", Json.string "hola")]))], .ok (), 1⟩ ∧
    (getRedisCachedJson ⟨some "u", some "t"⟩ storeFetch "translate" "en:hello"
        [(buildHashedCacheKey "translate" "en:hello",
          jsonStringify (Json.object [("text", Json.string "hola")]))]).result
      = .ok (some (Json.object [("text", Json.string "hola")])) :=
  cache_roundTrip ⟨some "u", some "t"⟩ "translate" "en:hello"
    (Json.object [("text", Json.string "hola")]) 3600 [] (by decide) (by decide)
